import Mathlib

/-!
Verification development for the `declarative-worker-api` pipeline core.

The definitions below are a shallow embedding of the dispatcher
(`processTask`, `processPipelineDAG`, `processPipelineSequential`,
`executeWithRetry`, `resolveTemplate`, `resolveTemplates`,
`getNestedValue`), of the effect dispatcher (`runEffects`) and of the
queue enqueue options (`enqueueTask`).  JavaScript dynamic values are
modelled by the recursive sum type `JsValue`; the JavaScript `undefined`
is modelled by `Option.none` at use sites.  Backend execution is I/O and
is therefore a parameter (`behavior`): a function from the constructed
child task (and the attempt number, for retries) to an outcome.
Cooperative async concurrency is modelled deterministically: a parallel
group is awaited as a whole, and template resolution inside a group reads
the snapshot of results taken when the group is launched (in the source,
all template resolution of a launched group happens in the synchronous
prefix of the async calls, before any result of the group is recorded).
-/

namespace DWA

/-- JavaScript-like dynamic value (null / bool / number / string /
array / object).  `undefined` is represented as `Option.none` where it
can occur. -/
inductive JsValue where
  | nul : JsValue
  | bool (b : Bool) : JsValue
  | num (n : Int) : JsValue
  | str (s : String) : JsValue
  | arr (elems : List JsValue) : JsValue
  | obj (fields : List (String × JsValue)) : JsValue
deriving Repr

/-- Equality test on dynamic values (structural, mirroring deep equality
of the data trees). -/
def JsValue.beq : JsValue → JsValue → Bool
  | .nul, .nul => true
  | .bool a, .bool b => a == b
  | .num a, .num b => a == b
  | .str a, .str b => a == b
  | .arr (a :: as), .arr (b :: bs) => JsValue.beq a b && JsValue.beq (.arr as) (.arr bs)
  | .arr [], .arr [] => true
  | .obj ((ka, va) :: as), .obj ((kb, vb) :: bs) =>
      ka == kb && JsValue.beq va vb && JsValue.beq (.obj as) (.obj bs)
  | .obj [], .obj [] => true
  | _, _ => false

/-- Property lookup on a JavaScript object literal: the first binding of
the key (object literals in the modelled code have unique keys). -/
def lookupField : List (String × JsValue) → String → Option JsValue
  | [], _ => none
  | (k, v) :: rest, key => if k = key then some v else lookupField rest key

/-- Decimal digits to a number (the characters are known to be digits). -/
def digitsToNat : List Char → Nat → Nat
  | [], acc => acc
  | c :: rest, acc => digitsToNat rest (acc * 10 + (c.toNat - 48))

/-- JavaScript split by a one-character separator (auxiliary loop). -/
def splitCharAux (sep : Char) : List Char → List Char → List String
  | [], acc => [String.mk acc.reverse]
  | c :: rest, acc =>
      if c = sep then String.mk acc.reverse :: splitCharAux sep rest []
      else splitCharAux sep rest (c :: acc)

/-- JavaScript `s.split(sep)` for a one-character separator (the empty
string splits to a singleton list holding the empty string). -/
def splitChar (sep : Char) (s : String) : List String :=
  splitCharAux sep s.data []

/-- JavaScript `s.trim()`. -/
def jsTrim (s : String) : String :=
  String.mk (((s.data.dropWhile Char.isWhitespace).reverse.dropWhile Char.isWhitespace).reverse)

/-- A string is a canonical array-index property (JavaScript array
indexing `a[s]` hits an element exactly when `s` is the canonical
decimal representation of an index): a nonempty digit string with no
leading zero, except the single digit `0` itself. -/
def parseArrayIndex (s : String) : Option Nat :=
  match s.data with
  | [] => none
  | [c] => if c.isDigit then some (c.toNat - 48) else none
  | c :: cs =>
      if c.isDigit && c != '0' && cs.all Char.isDigit then
        some (digitsToNat (c :: cs) 0)
      else none

/-- JavaScript member access `current[part]` for object-typed values:
field lookup on objects; on arrays, `length` and canonical in-bounds
numeric indices are the populated properties. -/
def jsMember : JsValue → String → Option JsValue
  | .obj fields, key => lookupField fields key
  | .arr xs, key =>
      if key = "length" then some (.num (Int.ofNat xs.length))
      else
        match parseArrayIndex key with
        | some i => xs.get? i
        | none => none
  | _, _ => none

/-- `typeof current === "object"` for non-null values: arrays and
objects (the null case is checked separately first in the source). -/
def isJsObject : JsValue → Bool
  | .arr _ => true
  | .obj _ => true
  | _ => false

/-- The loop of `getNestedValue`: walk the dotted-path segments.
`none` models the JavaScript `undefined`. -/
def getNestedGo : Option JsValue → List String → Option JsValue
  | cur, [] => cur
  | none, _ :: _ => none
  | some v, part :: rest =>
      match v with
      | .nul => none
      | v => if isJsObject v then getNestedGo (jsMember v part) rest else none

/-- `getNestedValue(obj, path)` from the dispatcher: get a nested value
from an object using dot notation. -/
def getNestedValue (obj : JsValue) (path : String) : Option JsValue :=
  getNestedGo (some obj) (splitChar '.' path)

/-- A string field value is a whole-string template, i.e. it starts with
the opening double brace and ends with the closing double brace. -/
def isWholeTemplate (t : String) : Bool :=
  t.data.take 2 == ['\x7b', '\x7b'] && t.data.reverse.take 2 == ['\x7d', '\x7d']

/-- The dotted path inside a whole-string template (drop the two braces
on each side and trim whitespace, as in `slice(2, -2).trim()`). -/
def templatePath (t : String) : String :=
  jsTrim ((t.drop 2).dropRight 2)

/-- `resolveTemplate(template, context)`: resolve a single template
string; a non-template string is returned as itself. -/
def resolveTemplate (template : String) (context : JsValue) : Option JsValue :=
  if isWholeTemplate template then getNestedValue context (templatePath template)
  else some (.str template)

/-- One entry of `resolveTemplates`: a whole-string template is replaced
by the referenced value (possibly `undefined`); any other string is kept
verbatim. -/
def resolveEntry (value : String) (context : JsValue) : Option JsValue :=
  if isWholeTemplate value then getNestedValue context (templatePath value)
  else some (.str value)

/-- `resolveTemplates(input, context)` from the dispatcher: resolve each
field of a step input. -/
def resolveTemplates (input : List (String × String)) (context : JsValue) :
    List (String × Option JsValue) :=
  input.map (fun kv => (kv.1, resolveEntry kv.2 context))

/-! ### Retry executor (`executeWithRetry`) -/

/-- `backoff` field of a retry policy. -/
inductive Backoff where
  | fixed : Backoff
  | exponential : Backoff
deriving DecidableEq, Repr

/-- Retry policy.  `attempts = 0` and `delay = 0` encode the JavaScript
falsy/absent cases (`!retry.attempts`, `retry.delay || 1000`). -/
structure RetryPolicy where
  attempts : Nat := 0
  backoff : Option Backoff := none
  delay : Nat := 0
deriving DecidableEq, Repr

/-- `const delay = retry.delay || 1000`. -/
def effectiveDelay (r : RetryPolicy) : Nat :=
  if r.delay = 0 then 1000 else r.delay

/-- The backoff wait inserted after failed attempt `attempt` (source:
`delay * Math.pow(2, attempt - 1)` for exponential, `delay` otherwise). -/
def backoffDelay (r : RetryPolicy) (attempt : Nat) : Nat :=
  if r.backoff = some Backoff.exponential then effectiveDelay r * 2 ^ (attempt - 1)
  else effectiveDelay r

/-- The retry loop of `executeWithRetry`.  `exec a` is the outcome of
attempt `a` (1-indexed); the second component is the list of backoff
waits that were inserted, in order.  `fuel` counts the attempts still
allowed after the current one, so the loop is called with
`attempt = 1`, `fuel = r.attempts - 1`. -/
def retryLoop (r : RetryPolicy) (exec : Nat → Except String JsValue) :
    Nat → Nat → Except String JsValue × List Nat
  | attempt, 0 => (exec attempt, [])
  | attempt, fuel + 1 =>
      match exec attempt with
      | .ok v => (.ok v, [])
      | .error e =>
          if attempt < r.attempts then
            let rest := retryLoop r exec (attempt + 1) fuel
            (rest.1, backoffDelay r attempt :: rest.2)
          else (.error e, [])

/-- `executeWithRetry(task, executor)`: no policy, or `attempts <= 1`,
runs the executor once; otherwise runs the retry loop.  Returns the
final outcome together with the inserted backoff waits. -/
def executeWithRetry (retry : Option RetryPolicy) (exec : Nat → Except String JsValue) :
    Except String JsValue × List Nat :=
  match retry with
  | none => (exec 1, [])
  | some r => if r.attempts ≤ 1 then (exec 1, []) else retryLoop r exec 1 (r.attempts - 1)

/-! ### Pipeline data model -/

/-- A pipeline step, with the fields the dispatcher reads.  `resources`
is advisory metadata the dispatcher passes through uninterpreted. -/
structure Step where
  id : Option String := none
  task : String
  dependsOn : List String := []
  input : List (String × String) := []
  forEach : Option String := none
  forEachConcurrency : Nat := 0
  optional : Bool := false
  retry : Option RetryPolicy := none
  resources : Option JsValue := none
deriving Repr

/-- A submitted job, with the fields the dispatcher and the queue
read. -/
structure Task where
  type : String
  payload : JsValue := .obj []
  backend : Option String := none
  queue : Option String := none
  priority : Option Int := none
  delay : Option Nat := none
  cron : Option String := none
  retry : Option RetryPolicy := none
  resources : Option JsValue := none
  steps : List Step := []
deriving Repr

/-- The child task record the dispatcher builds for one step execution
(the `stepTask` literal in the source).  A resolved input entry can be
`undefined`, hence the `Option` in the payload entries. -/
structure StepTask where
  type : String
  backend : Option String := none
  payload : List (String × Option JsValue) := []
  resources : Option JsValue := none
  retry : Option RetryPolicy := none
deriving Repr

/-- JavaScript `a || b` on option-like values (an absent field falls
back; present objects are truthy). -/
def jsOrElse (a b : Option α) : Option α :=
  match a with
  | some x => some x
  | none => b

/-- Build the child task for a step (`type: step.task`,
`backend: task.backend`, `payload: resolvedInput`,
`resources: step.resources || task.resources`,
`retry: step.retry || task.retry`). -/
def mkStepTask (task : Task) (step : Step) (resolvedInput : List (String × Option JsValue)) :
    StepTask :=
  { type := step.task
    backend := task.backend
    payload := resolvedInput
    resources := jsOrElse step.resources task.resources
    retry := jsOrElse step.retry task.retry }

/-! ### forEach batching -/

/-- Map with an explicit running index (`batch.map((item, batchIndex) =>
f(start + batchIndex, item))`). -/
def mapIdxFrom (f : Nat → α → β) : Nat → List α → List β
  | _, [] => []
  | i, a :: rest => f i a :: mapIdxFrom f (i + 1) rest

/-- The batching loop `for (let i = 0; i < items.length; i += concurrency)`
with `items.slice(i, i + concurrency)`, as take/drop chunks.  The fuel
is the list length; each productive round drops at least one element
because the effective concurrency is positive whenever the list is
nonempty. -/
def chunksGo (c : Nat) : Nat → List α → List (List α)
  | _, [] => []
  | 0, l => [l]
  | fuel + 1, l => l.take c :: chunksGo c fuel (l.drop c)

/-- Split a list into consecutive batches of size `c`. -/
def chunks (c : Nat) (l : List α) : List (List α) :=
  chunksGo c l.length l

/-- Run the per-item function over the batches, keeping the global item
index (`index = i + batchIndex`) and concatenating the per-batch
results in order. -/
def runForEachGo (f : Nat → α → β) : Nat → List (List α) → List β
  | _, [] => []
  | start, batch :: rest =>
      mapIdxFrom f start batch ++ runForEachGo f (start + batch.length) rest

/-- The forEach execution order: batches of size `c`, per-item results
collected in item order. -/
def runForEach (f : Nat → α → β) (items : List α) (c : Nat) : List β :=
  runForEachGo f 0 (chunks c items)

/-- First error of the per-item outcomes, or the ordered list of
values when all items succeeded (`Promise.all` then
`itemResults.push(...batchResults)`). -/
def collectResults : List (Except String JsValue) → Except String (List JsValue)
  | [] => .ok []
  | .ok v :: rest =>
      match collectResults rest with
      | .ok vs => .ok (v :: vs)
      | .error e => .error e
  | .error e :: _ => .error e

/-! ### DAG step execution -/

/-- JavaScript `typeof` of a resolved value (`null` and arrays report
`"object"`). -/
def jsTypeof : Option JsValue → String
  | none => "undefined"
  | some .nul => "object"
  | some (.bool _) => "boolean"
  | some (.num _) => "number"
  | some (.str _) => "string"
  | some (.arr _) => "object"
  | some (.obj _) => "object"

/-- The typed error raised when a forEach template does not resolve to
an array. -/
def forEachTypeError (tmpl : String) (v : Option JsValue) : String :=
  "forEach template \"" ++ tmpl ++ "\" did not resolve to array, got: " ++ jsTypeof v

/-- Template-resolution context of the DAG scheduler:
`\x7b payload, steps: results \x7d`, with the snapshot of the results
record taken when the step's group is launched. -/
def dagContext (task : Task) (snapshot : List (String × JsValue)) : JsValue :=
  .obj [("payload", task.payload), ("steps", .obj snapshot)]

/-- Per-item context for forEach: the step context extended with
`item` and `index`. -/
def itemContext (task : Task) (snapshot : List (String × JsValue)) (item : JsValue)
    (index : Nat) : JsValue :=
  .obj [("payload", task.payload), ("steps", .obj snapshot),
        ("item", item), ("index", .num (Int.ofNat index))]

/-- One forEach item execution: resolve the step input against the item
context, build the child task, execute it under the step's retry
policy.  `behavior` gives the backend outcome per attempt. -/
def itemExec (behavior : StepTask → Nat → Except String JsValue) (task : Task)
    (snapshot : List (String × JsValue)) (step : Step) (index : Nat) (item : JsValue) :
    Except String JsValue :=
  let ctx := itemContext task snapshot item index
  let stepTask := mkStepTask task step (resolveTemplates step.input ctx)
  (executeWithRetry stepTask.retry (behavior stepTask)).1

/-- Net outcome of a step's own work (the body of the `try` in
`executeStep`): forEach fan-out when declared, otherwise a single child
task execution. -/
def stepExecOutcome (behavior : StepTask → Nat → Except String JsValue) (task : Task)
    (snapshot : List (String × JsValue)) (step : Step) : Except String JsValue :=
  match step.forEach with
  | some tmpl =>
      match resolveTemplate tmpl (dagContext task snapshot) with
      | some (.arr items) =>
          let conc := if step.forEachConcurrency = 0 then items.length
                      else step.forEachConcurrency
          match collectResults (runForEach (itemExec behavior task snapshot step) items conc) with
          | .ok vs => .ok (.arr vs)
          | .error e => .error e
      | v => .error (forEachTypeError tmpl v)
  | none =>
      let stepTask := mkStepTask task step (resolveTemplates step.input (dagContext task snapshot))
      (executeWithRetry stepTask.retry (behavior stepTask)).1

/-! ### DAG scheduler state -/

/-- Step status values. -/
inductive StatusKind where
  | pending
  | running
  | completed
  | failed
  | skipped
deriving DecidableEq, Repr

/-- Per-step status record (`StepStatus` in the source; wall-clock
timestamps are not modelled). -/
structure StepStatus where
  id : String
  task : String
  status : StatusKind
  error : Option String := none
  result : Option JsValue := none
deriving Repr

/-- First-match association lookup (JavaScript record / `Map.get`). -/
def lookupAssoc : List (String × α) → String → Option α
  | [], _ => none
  | p :: rest, key => if p.1 = key then some p.2 else lookupAssoc rest key

/-- Scheduler state: the results record and the `completed` / `failed` /
`running` sets, plus the status map. -/
structure DagState where
  results : List (String × JsValue) := []
  completed : List String := []
  failed : List String := []
  running : List String := []
  statuses : List (String × StepStatus) := []
deriving Repr

/-- Set insertion (`Set.add`). -/
def insertUnique (l : List String) (id : String) : List String :=
  if l.contains id then l else l ++ [id]

/-- Record assignment `results[stepId] = v` (overwrite or append). -/
def setResult (rs : List (String × JsValue)) (id : String) (v : JsValue) :
    List (String × JsValue) :=
  if rs.any (fun p => p.1 = id) then rs.map (fun p => if p.1 = id then (id, v) else p)
  else rs ++ [(id, v)]

/-- In-place update of one entry of the status map. -/
def setStatus (sts : List (String × StepStatus)) (id : String) (f : StepStatus → StepStatus) :
    List (String × StepStatus) :=
  sts.map (fun p => if p.1 = id then (p.1, f p.2) else p)

/-- `canRun(step, stepId)`: not yet running / completed / failed, and
every dependency id is in `completed`. -/
def canRun (st : DagState) (stepId : String) (step : Step) : Bool :=
  if st.running.contains stepId || st.completed.contains stepId || st.failed.contains stepId then
    false
  else step.dependsOn.all (fun d => st.completed.contains d)

/-- The result recorded for a skipped optional step:
`\x7b error, skipped: true \x7d`. -/
def skippedResult (msg : String) : JsValue :=
  .obj [("error", .str msg), ("skipped", .bool true)]

/-- Start of `executeStep`: add to `running` and set the status to
`running`. -/
def markRunning (st : DagState) (id : String) : DagState :=
  { st with running := id :: st.running,
            statuses := setStatus st.statuses id (fun s => { s with status := .running }) }

/-- Success path of `executeStep`. -/
def recordSuccess (st : DagState) (id : String) (v : JsValue) : DagState :=
  { st with running := st.running.erase id,
            completed := insertUnique st.completed id,
            results := setResult st.results id v,
            statuses := setStatus st.statuses id
              (fun s => { s with status := .completed, result := some v }) }

/-- Optional-failure path of `executeStep`: mark as completed so that
dependents can run, record the skip object, set the status to
`skipped`. -/
def recordSkip (st : DagState) (id : String) (msg : String) : DagState :=
  { st with running := st.running.erase id,
            completed := insertUnique st.completed id,
            results := setResult st.results id (skippedResult msg),
            statuses := setStatus st.statuses id
              (fun s => { s with status := .skipped, error := some msg }) }

/-- Non-optional failure path of `executeStep`. -/
def recordFail (st : DagState) (id : String) (msg : String) : DagState :=
  { st with running := st.running.erase id,
            failed := insertUnique st.failed id,
            statuses := setStatus st.statuses id
              (fun s => { s with status := .failed, error := some msg }) }

/-- `executeStep(stepId, step)`: run the step's work and classify the
outcome.  The second component is the `error` field of the returned
outcome record (`some` exactly for a non-optional failure). -/
def executeStep (behavior : StepTask → Nat → Except String JsValue) (task : Task)
    (snapshot : List (String × JsValue)) (st : DagState) (id : String) (step : Step) :
    DagState × Option String :=
  let st1 := markRunning st id
  match stepExecOutcome behavior task snapshot step with
  | .ok v => (recordSuccess st1 id v, none)
  | .error msg =>
      if step.optional then (recordSkip st1 id msg, none)
      else (recordFail st1 id msg, some msg)

/-- Await a launched group (`Promise.all(executions)`): every member
runs to completion; the outcomes are collected in launch order. -/
def runGroup (behavior : StepTask → Nat → Except String JsValue) (task : Task)
    (snapshot : List (String × JsValue)) :
    List (String × Step) → DagState → DagState × List (String × Option String)
  | [], st => (st, [])
  | e :: rest, st =>
      let out := executeStep behavior task snapshot st e.1 e.2
      let restOut := runGroup behavior task snapshot rest out.1
      (restOut.1, (e.1, out.2) :: restOut.2)

/-- The first outcome carrying an error, in group order (`for (const
outcome of outcomes) if (outcome.error) throw outcome.error`). -/
def firstErr : List (String × Option String) → Option (String × String)
  | [] => none
  | p :: rest =>
      match p.2 with
      | some m => some (p.1, m)
      | none => firstErr rest

/-- Auto-generated step id: `step.id || step_<index>` (an empty string
id is falsy). -/
def dagStepId (index : Nat) (step : Step) : String :=
  match step.id with
  | some i => if i = "" then "step_" ++ Nat.repr index else i
  | none => "step_" ++ Nat.repr index

/-- The step map in declaration order, keyed by (possibly generated)
id. -/
def stepEntries (steps : List Step) : List (String × Step) :=
  mapIdxFrom (fun i s => (dagStepId i s, s)) 0 steps

/-- Initial status map: every step `pending`. -/
def initStatuses (entries : List (String × Step)) : List (String × StepStatus) :=
  entries.map (fun e =>
    (e.1, { id := e.1, task := e.2.task, status := StatusKind.pending }))

/-- Initial scheduler state. -/
def initState (entries : List (String × Step)) : DagState :=
  { statuses := initStatuses entries }

/-- Tasks of the steps that are neither completed nor failed (the
deadlock message lists them). -/
def remainingTasks (entries : List (String × Step)) (st : DagState) : List String :=
  (entries.filter (fun e => !(st.completed.contains e.1 || st.failed.contains e.1))).map
    (fun e => e.2.task)

/-- Terminal pipeline error: the first non-optional step failure, or a
deadlock. -/
inductive DagError where
  | stepFailure (id : String) (msg : String)
  | deadlock (remaining : List String)
deriving DecidableEq, Repr

/-- Outcome of a DAG pipeline run: final state, the launched groups in
scheduling order, and the result (ordered raw results on success). -/
structure DagRun where
  state : DagState
  launched : List (List String)
  result : Except DagError (List (Option JsValue))
deriving Repr

/-- Raw results in declaration order (`orderedResults`). -/
def orderedResults (entries : List (String × Step)) (st : DagState) : List (Option JsValue) :=
  entries.map (fun e => lookupAssoc st.results e.1)

/-- The scheduler loop (`while (completed.size + failed.size <
totalSteps)`).  One fuel unit per iteration; `none` models a run that
needs more iterations than the fuel allows (each productive iteration
terminates at least one step, so `steps.length + 1` fuel always
suffices; the cooperative-wait branch is unreachable because a group is
awaited as a whole, leaving `running` empty between iterations). -/
def dagLoopGo (behavior : StepTask → Nat → Except String JsValue) (task : Task)
    (entries : List (String × Step)) (total : Nat) :
    Nat → DagState → List (List String) → Option DagRun
  | 0, _, _ => none
  | fuel + 1, st, groups =>
      if total ≤ st.completed.length + st.failed.length then
        some { state := st, launched := groups, result := .ok (orderedResults entries st) }
      else
        let runnable := entries.filter (fun e => canRun st e.1 e.2)
        if runnable.isEmpty then
          if st.running.isEmpty then
            some { state := st, launched := groups,
                   result := .error (.deadlock (remainingTasks entries st)) }
          else none
        else
          let ran := runGroup behavior task st.results runnable st
          let gids := runnable.map (fun e => e.1)
          match firstErr ran.2 with
          | some idmsg =>
              some { state := ran.1, launched := groups ++ [gids],
                     result := .error (.stepFailure idmsg.1 idmsg.2) }
          | none => dagLoopGo behavior task entries total fuel ran.1 (groups ++ [gids])

/-- `processPipelineDAG`: build the step map and run the scheduler
loop. -/
def processPipelineDAG (behavior : StepTask → Nat → Except String JsValue) (task : Task) :
    Option DagRun :=
  let entries := stepEntries task.steps
  dagLoopGo behavior task entries task.steps.length (task.steps.length + 1)
    (initState entries) []

/-- The `parallelGroups` field: only groups of more than one step are
recorded. -/
def parallelGroupsOf (run : DagRun) : List (List String) :=
  run.launched.filter (fun g => 1 < g.length)

/-! ### Sequential executor -/

/-- State threaded by the sequential executor.  `invocations` and
`contexts` are observability fields of the model: the child tasks
executed, and the resolution context used, one per executed step in
order. -/
structure SeqState where
  results : List JsValue := []
  statuses : List StepStatus := []
  invocations : List StepTask := []
  contexts : List JsValue := []
deriving Repr

/-- Sequential-mode context: `\x7b payload, steps: stepResults \x7d`
where `stepResults` is the array of prior raw results. -/
def seqStepContext (payload : JsValue) (prior : List JsValue) : JsValue :=
  .obj [("payload", payload), ("steps", .arr prior)]

/-- Terminal status record of sequential step `index`
(id `step_<i>`). -/
def seqStatus (index : Nat) (step : Step) (status : StatusKind) (err : Option String)
    (res : Option JsValue) : StepStatus :=
  { id := "step_" ++ Nat.repr index, task := step.task, status := status,
    error := err, result := res }

/-- The sequential loop: resolve the input against the current context,
execute under retry, push the result (or the skip object for a failed
optional step), or abort with the error. -/
def seqGo (behavior : StepTask → Nat → Except String JsValue) (task : Task) :
    List Step → Nat → SeqState → Except (String × SeqState) SeqState
  | [], _, st => .ok st
  | step :: rest, i, st =>
      let context := seqStepContext task.payload st.results
      let stepTask := mkStepTask task step (resolveTemplates step.input context)
      let st1 := { st with invocations := st.invocations ++ [stepTask],
                           contexts := st.contexts ++ [context] }
      match (executeWithRetry stepTask.retry (behavior stepTask)).1 with
      | .ok v =>
          seqGo behavior task rest (i + 1)
            { st1 with results := st1.results ++ [v],
                       statuses := st1.statuses ++ [seqStatus i step .completed none (some v)] }
      | .error msg =>
          if step.optional then
            seqGo behavior task rest (i + 1)
              { st1 with results := st1.results ++ [skippedResult msg],
                         statuses := st1.statuses ++ [seqStatus i step .skipped (some msg) none] }
          else
            .error (msg, { st1 with
              statuses := st1.statuses ++ [seqStatus i step .failed (some msg) none] })

/-- The returned pipeline result of the sequential executor.  The
`step_<i>` keyed record is built only here, after the loop. -/
structure SeqOutput where
  steps : List JsValue
  stepResults : List (String × JsValue)
  stepStatus : List StepStatus
  finalResult : Option JsValue
  state : SeqState
deriving Repr

/-- `processPipelineSequential`: run the loop and assemble the
result. -/
def processPipelineSequential (behavior : StepTask → Nat → Except String JsValue)
    (task : Task) : Except (String × SeqState) SeqOutput :=
  match seqGo behavior task task.steps 0 {} with
  | .error e => .error e
  | .ok st =>
      .ok { steps := st.results,
            stepResults := mapIdxFrom (fun i v => ("step_" ++ Nat.repr i, v)) 0 st.results,
            stepStatus := st.statuses,
            finalResult := st.results.getLast?,
            state := st }

/-! ### Dispatcher entry point -/

/-- `s.dependsOn?.length || s.id` for one step (an empty string id is
falsy). -/
def stepTruthyId (s : Step) : Bool :=
  match s.id with
  | some i => i != ""
  | none => false

/-- `task.steps.some((s) => s.dependsOn?.length || s.id)`. -/
def hasDependencies (steps : List Step) : Bool :=
  steps.any (fun s => s.dependsOn.length != 0 || stepTruthyId s)

/-- Outcome of the dispatcher entry point, by route. -/
inductive ProcessOutcome where
  | dagMode (run : Option DagRun)
  | sequentialMode (run : Except (String × SeqState) SeqOutput)
  | singleTask (result : Except String JsValue × List Nat)
deriving Repr

/-- `processTask`: pipeline with any id/dependency goes to the DAG
scheduler, other pipelines to the sequential executor, plain tasks to a
single retried execution (`singleBehavior`; the optional media-chunking
hook is not engaged when no chunk configuration is passed). -/
def processTask (behavior : StepTask → Nat → Except String JsValue)
    (singleBehavior : Task → Nat → Except String JsValue) (task : Task) : ProcessOutcome :=
  if task.steps.length != 0 then
    if hasDependencies task.steps then .dagMode (processPipelineDAG behavior task)
    else .sequentialMode (processPipelineSequential behavior task)
  else
    .singleTask (executeWithRetry task.retry (singleBehavior task))

/-! ### Effect dispatcher -/

/-- Context passed to effect handlers. -/
structure EffectContext where
  task : Task
  jobId : Option String := none
  result : Option JsValue := none
  error : Option String := none
  progress : Option Nat := none

/-- A declarative effect record: the `$event` discriminant plus its
per-kind fields, which the dispatcher passes through uninterpreted. -/
structure Effect where
  event : String
  fields : JsValue := .obj []

/-- What the dispatcher did for one effect record. -/
inductive EffectOutcome where
  | ran (event : String) (err : Option String)
  | unknownEvent (event : String)
deriving DecidableEq, Repr

/-- One iteration of the dispatcher loop: look the handler up by the
discriminant; invoke it and catch (and log) its error; warn on an
unknown discriminant. -/
def dispatchEffect (handlerFor : String → Option (Effect → EffectContext → Except String Unit))
    (ctx : EffectContext) (e : Effect) : EffectOutcome :=
  match handlerFor e.event with
  | some h =>
      match h e ctx with
      | .ok _ => .ran e.event none
      | .error msg => .ran e.event (some msg)
  | none => .unknownEvent e.event

/-- `runEffects(effects, context)`: the sequential dispatcher loop.  A
handler error is caught inside the iteration, so the loop always
continues to the next record. -/
def runEffects (handlerFor : String → Option (Effect → EffectContext → Except String Unit))
    (ctx : EffectContext) : List Effect → List EffectOutcome
  | [] => []
  | e :: rest =>
      let out :=
        match handlerFor e.event with
        | some h =>
            match h e ctx with
            | .ok _ => EffectOutcome.ran e.event none
            | .error msg => EffectOutcome.ran e.event (some msg)
        | none => EffectOutcome.unknownEvent e.event
      out :: runEffects handlerFor ctx rest

/-- The `$event` keys of the source's handler table. -/
def knownEffectEvents : List String :=
  ["toast", "webhook", "notify", "enqueue", "invalidate", "emit"]

/-! ### Queue enqueue options -/

/-- The broker job options derived by `enqueueTask`. -/
structure JobOptions where
  priority : Option Int
  attempts : Nat
  backoffType : Backoff
  backoffDelay : Nat
  delay : Option Nat
  repeatPattern : Option String
deriving DecidableEq, Repr

/-- `enqueueTask` option derivation: `attempts: task.retry?.attempts ||
3`; exponential backoff exactly when the policy says so, with
`delay || 1000`; `delay` and `repeat` only when truthy. -/
def enqueueJobOptions (task : Task) : JobOptions :=
  { priority := task.priority
    attempts :=
      match task.retry with
      | some r => if r.attempts = 0 then 3 else r.attempts
      | none => 3
    backoffType :=
      match task.retry with
      | some r => if r.backoff = some Backoff.exponential then Backoff.exponential
                  else Backoff.fixed
      | none => Backoff.fixed
    backoffDelay :=
      match task.retry with
      | some r => if r.delay = 0 then 1000 else r.delay
      | none => 1000
    delay :=
      match task.delay with
      | some d => if d = 0 then none else some d
      | none => none
    repeatPattern :=
      match task.cron with
      | some c => if c = "" then none else some c
      | none => none }

/-! ### Concrete fixtures (backends and pipelines used to instantiate
the theorems; an echo backend returns its resolved input as the result,
as in the specification's scenarios). -/

/-- A resolved step input as the result object an echo backend returns
(`undefined`-valued entries are absent properties of the echoed
object). -/
def payloadJs (p : List (String × Option JsValue)) : JsValue :=
  .obj (p.filterMap (fun kv => kv.2.map (fun v => (kv.1, v))))

/-- Echo backend: always succeeds with the resolved input. -/
def echoBackend : StepTask → Nat → Except String JsValue :=
  fun st _ => .ok (payloadJs st.payload)

/-- Backend that fails the task type `fails` and echoes otherwise. -/
def failsBackend : StepTask → Nat → Except String JsValue :=
  fun st _ => if st.type = "fails" then .error "nope" else .ok (payloadJs st.payload)

/-- A per-attempt executor that always fails. -/
def alwaysFail : Nat → Except String JsValue :=
  fun _ => .error "boom"

/-- A step stripped of its forEach fields (used to state that the
sequential executor ignores them). -/
def clearForEach (s : Step) : Step :=
  { s with forEach := none, forEachConcurrency := 0 }

/-- Payload of the `k`-th executed child task of a sequential run
(`none` when the run failed or has fewer executed steps). -/
def seqInvocationPayload (r : Except (String × SeqState) SeqOutput) (k : Nat) :
    Option (List (String × Option JsValue)) :=
  match r with
  | .ok out => (out.state.invocations.get? k).map (fun t => t.payload)
  | .error _ => none

/-- Placeholder run used only as the default of `Option.getD` on a run
that is proved to exist. -/
def emptyDagRun : DagRun :=
  { state := {}, launched := [], result := .error (.deadlock []) }

/-- Two-step sequential pipeline referencing the first result by
numeric index (the specification's first scenario). -/
def seqTaskIdx : Task :=
  { type := "pipeline", payload := .obj [("x", .str "A")],
    steps := [ { task := "echo", input := [("v", "\x7b\x7bpayload.x\x7d\x7d")] },
               { task := "echo", input := [("prev", "\x7b\x7bsteps.0.v\x7d\x7d")] } ] }

/-- The same pipeline referencing the first result by the generated
`step_0` key instead. -/
def seqTaskKey : Task :=
  { type := "pipeline", payload := .obj [("x", .str "A")],
    steps := [ { task := "echo", input := [("v", "\x7b\x7bpayload.x\x7d\x7d")] },
               { task := "echo", input := [("prev", "\x7b\x7bsteps.step_0.v\x7d\x7d")] } ] }

/-- DAG pipeline with a non-optional failing step `b` launched together
with `c`, and a dependent `d` that must never start. -/
def dagFailTask : Task :=
  { type := "pipeline", payload := .obj [],
    steps := [ { id := some "a", task := "ok" },
               { id := some "b", task := "fails", dependsOn := ["a"] },
               { id := some "c", task := "ok", dependsOn := ["a"] },
               { id := some "d", task := "ok", dependsOn := ["b"] } ] }

/-- The completed run of `dagFailTask` under `failsBackend`. -/
def dagFailRun : DagRun :=
  (processPipelineDAG failsBackend dagFailTask).getD emptyDagRun

/-- DAG pipeline with an optional failing step between two required
ones (the specification's optional-failure scenario). -/
def dagSkipTask : Task :=
  { type := "pipeline", payload := .obj [],
    steps := [ { id := some "x", task := "ok" },
               { id := some "y", task := "fails", optional := true, dependsOn := ["x"] },
               { id := some "z", task := "ok", dependsOn := ["y"] } ] }

/-- Single forEach step over three payload items with bounded
concurrency. -/
def forEachStep : Step :=
  { id := some "p", task := "echo", forEach := some "\x7b\x7bpayload.items\x7d\x7d",
    forEachConcurrency := 2,
    input := [("v", "\x7b\x7bitem\x7d\x7d"), ("i", "\x7b\x7bindex\x7d\x7d")] }

/-- Pipeline carrying `forEachStep`. -/
def forEachTask : Task :=
  { type := "pipeline", payload := .obj [("items", .arr [.num 10, .num 20, .num 30])],
    steps := [forEachStep] }

/-- The per-item echo results of `forEachStep` on `forEachTask`. -/
def forEachExpected (k : Nat) : JsValue :=
  .obj [("v", .num (10 * (Int.ofNat k + 1))), ("i", .num (Int.ofNat k))]

/-- Handler table used to instantiate the effect-dispatcher theorems:
`webhook` raises, `toast` succeeds, anything else is unknown. -/
def sampleHandlers : String → Option (Effect → EffectContext → Except String Unit) :=
  fun ev =>
    if ev = "webhook" then some (fun _ _ => .error "http 500")
    else if ev = "toast" then some (fun _ _ => .ok ())
    else none

/-- Effect list with a failing handler in the middle and an unknown
kind at the end. -/
def sampleEffects : List Effect :=
  [ { event := "toast" }, { event := "webhook" }, { event := "toast" },
    { event := "bogus" } ]

/-- Context handed to `sampleHandlers`. -/
def sampleEffectContext : EffectContext :=
  { task := { type := "t" } }

/-- Sequential pipeline with no ids or dependencies whose only step
carries forEach fields (which the sequential executor must ignore). -/
def seqForEachTask : Task :=
  { type := "pipeline", payload := .obj [("x", .str "A")],
    steps := [ { task := "echo", input := [("v", "\x7b\x7bpayload.x\x7d\x7d")],
                 forEach := some "\x7b\x7bpayload.items\x7d\x7d",
                 forEachConcurrency := 9 } ] }

/-- Project the state out of a successful sequential loop outcome (the
failure payload's state otherwise). -/
def okStateD (r : Except (String × SeqState) SeqState) : SeqState :=
  match r with
  | .ok s => s
  | .error e => e.2

/-- Project the output out of a successful sequential run (an empty
output otherwise). -/
def okOutD (r : Except (String × SeqState) SeqOutput) : SeqOutput :=
  match r with
  | .ok o => o
  | .error _ =>
      { steps := [], stepResults := [], stepStatus := [], finalResult := none, state := {} }

/-- Invariant established by a successful sequential loop over `l`
starting from `st`: one result, one resolution context and one
child-task invocation are appended per step, in order; the context of
relative step `k` is the payload plus the sequence of results
accumulated so far, and the invocation of relative step `k` is built
from exactly that context. -/
def SeqInv (task : Task) (l : List Step) (st st' : SeqState) : Prop :=
  st'.results.length = st.results.length + l.length
  ∧ st'.contexts.length = st.contexts.length + l.length
  ∧ st'.invocations.length = st.invocations.length + l.length
  ∧ st'.results.take st.results.length = st.results
  ∧ st'.contexts.take st.contexts.length = st.contexts
  ∧ st'.invocations.take st.invocations.length = st.invocations
  ∧ (∀ k, k < l.length →
      st'.contexts.get? (st.contexts.length + k)
        = some (seqStepContext task.payload (st'.results.take (st.results.length + k))))
  ∧ (∀ k (hk : k < l.length),
      st'.invocations.get? (st.invocations.length + k)
        = some (mkStepTask task (l.get ⟨k, hk⟩)
            (resolveTemplates (l.get ⟨k, hk⟩).input
              (seqStepContext task.payload (st'.results.take (st.results.length + k))))))

/-- A per-step status that will not be revisited: the step has been
resolved one way or another. -/
def terminalStatus (k : StatusKind) : Prop :=
  k = .completed ∨ k = .failed ∨ k = .skipped

/-! ## Theorems -/

/-- When every attempt fails, the retry loop inserts exactly one
backoff wait per failed non-final attempt, in order. -/
theorem retryLoop_waits (r : RetryPolicy) (exec : Nat → Except String JsValue)
    (m : Nat → String) (hfail : ∀ i, exec i = .error (m i)) :
    ∀ fuel attempt, attempt + fuel = r.attempts →
      (retryLoop r exec attempt fuel).2
        = (List.range fuel).map (fun j => backoffDelay r (attempt + j)) := by
  intro fuel
  induction fuel with
  | zero => intro attempt _; simp [retryLoop]
  | succ f ih =>
    intro attempt h
    have hlt : attempt < r.attempts := by omega
    simp only [retryLoop, hfail attempt, hlt, if_true]
    rw [ih (attempt + 1) (by omega), List.range_succ_eq_map]
    simp only [List.map_cons, List.map_map, Nat.add_zero, List.cons.injEq, true_and]
    apply List.map_congr_left
    intro j _
    simp only [Function.comp_apply, Nat.succ_eq_add_one]
    congr 1
    omega

/-- The waits inserted by `executeWithRetry` when every attempt
fails. -/
theorem executeWithRetry_waits (r : RetryPolicy) (exec : Nat → Except String JsValue)
    (m : Nat → String) (hfail : ∀ i, exec i = .error (m i)) (h2 : 2 ≤ r.attempts) :
    (executeWithRetry (some r) exec).2
      = (List.range (r.attempts - 1)).map (fun j => backoffDelay r (1 + j)) := by
  simp only [executeWithRetry]
  rw [if_neg (by omega)]
  exact retryLoop_waits r exec m hfail (r.attempts - 1) 1 (by omega)

/-- C3 (amended): for a retry policy with attempts `a ≥ 2` and base
delay `d ≥ 1`, when every attempt fails, the wait inserted before
attempt `k` (1-indexed, `2 ≤ k ≤ a`) equals `d · 2^(k-2)` for
exponential backoff — i.e. `d · 2^(j-1)` after failed attempt
`j = k - 1` — and equals `d` for fixed backoff. -/
theorem backoff_wait_before_attempt (d a k : Nat) (exec : Nat → Except String JsValue)
    (m : Nat → String) (hd : d ≠ 0) (ha : 2 ≤ a) (hk2 : 2 ≤ k) (hka : k ≤ a)
    (hfail : ∀ i, exec i = .error (m i)) :
    (executeWithRetry (some { attempts := a, backoff := some Backoff.exponential, delay := d })
        exec).2.get? (k - 2) = some (d * 2 ^ (k - 2))
    ∧ (executeWithRetry (some { attempts := a, backoff := some Backoff.fixed, delay := d })
        exec).2.get? (k - 2) = some d := by
  have hget : ∀ (f : Nat → Nat), ((List.range (a - 1)).map f).get? (k - 2) = some (f (k - 2)) := by
    intro f
    rw [List.get?_map, List.get?_range (by omega)]
    rfl
  constructor
  · rw [executeWithRetry_waits _ exec m hfail (by simpa using ha), hget]
    have he : 1 + (k - 2) - 1 = k - 2 := by omega
    simp [backoffDelay, effectiveDelay, hd, he]
  · rw [executeWithRetry_waits _ exec m hfail (by simpa using ha), hget]
    simp [backoffDelay, effectiveDelay, hd]

/-- C3 counterexample: with exponential backoff, `d = 1000`, `a = 2`,
the wait inserted before attempt `k = 2` is `1000`, not
`d · 2^(k-1) = 2000` as the claim states. -/
theorem backoff_wait_counterexample :
    (executeWithRetry (some { attempts := 2, backoff := some Backoff.exponential, delay := 1000 })
        alwaysFail).2 = [1000]
    ∧ (1000 : Nat) ≠ 1000 * 2 ^ (2 - 1) :=
  ⟨rfl, by decide⟩

/-- C3 witness: the amended statement at `d = 5`, `a = 4`, `k = 3`
(the wait before attempt 3 is `5 · 2 = 10`). -/
theorem backoff_wait_witness :
    (executeWithRetry (some { attempts := 4, backoff := some Backoff.exponential, delay := 5 })
        alwaysFail).2.get? (3 - 2) = some (5 * 2 ^ (3 - 2))
    ∧ (executeWithRetry (some { attempts := 4, backoff := some Backoff.fixed, delay := 5 })
        alwaysFail).2.get? (3 - 2) = some 5 :=
  backoff_wait_before_attempt 5 4 3 alwaysFail (fun _ => "boom")
    (by decide) (by decide) (by decide) (by decide) (fun _ => rfl)

/-- Walking an array with a canonical in-bounds numeric segment steps
into the indexed element. -/
theorem getNestedGo_arr_index (xs : List JsValue) (seg : String) (i : Nat)
    (rest : List String) (hseg : parseArrayIndex seg = some i) (h : i < xs.length) :
    getNestedGo (some (JsValue.arr xs)) (seg :: rest)
      = getNestedGo (some (xs.get ⟨i, h⟩)) rest := by
  have hlen : seg ≠ "length" := by
    intro he
    rw [he] at hseg
    have hnone : parseArrayIndex "length" = none := rfl
    rw [hnone] at hseg
    exact Option.noConfusion hseg
  simp only [getNestedGo, isJsObject, jsMember, if_neg hlen, hseg, if_true]
  rw [List.get?_eq_get h]

/-- Walking an array with the `length` segment steps into the numeric
length. -/
theorem getNestedGo_arr_length (xs : List JsValue) (rest : List String) :
    getNestedGo (some (JsValue.arr xs)) ("length" :: rest)
      = getNestedGo (some (JsValue.num (Int.ofNat xs.length))) rest := by
  simp [getNestedGo, isJsObject, jsMember]

/-- Walking any non-object (string / number / boolean / null) halts
with `undefined`. -/
theorem getNestedGo_nonObject (v : JsValue) (part : String) (rest : List String)
    (h : isJsObject v = false) :
    getNestedGo (some v) (part :: rest) = none := by
  cases v <;> simp_all [getNestedGo, isJsObject]

/-- C4 (amended): path evaluation does support numeric indexing into
sequences — a canonical in-bounds decimal segment selects the element,
`length` yields the length, and only primitives and null make the
result undefined; in particular `steps.0.v` resolves through a sequence
of step results. -/
theorem template_path_sequence_indexing :
    (∀ (xs : List JsValue) (seg : String) (i : Nat) (rest : List String),
        parseArrayIndex seg = some i → ∀ (h : i < xs.length),
        getNestedGo (some (JsValue.arr xs)) (seg :: rest)
          = getNestedGo (some (xs.get ⟨i, h⟩)) rest)
    ∧ (∀ (xs : List JsValue) (rest : List String),
        getNestedGo (some (JsValue.arr xs)) ("length" :: rest)
          = getNestedGo (some (JsValue.num (Int.ofNat xs.length))) rest)
    ∧ (∀ (v : JsValue) (part : String) (rest : List String),
        isJsObject v = false → getNestedGo (some v) (part :: rest) = none)
    ∧ getNestedValue (JsValue.obj [("steps", JsValue.arr [JsValue.obj [("v", JsValue.str "A")]])])
        "steps.0.v" = some (JsValue.str "A") :=
  ⟨fun xs seg i rest hseg h => getNestedGo_arr_index xs seg i rest hseg h,
   getNestedGo_arr_length,
   getNestedGo_nonObject,
   rfl⟩

/-- C4 counterexample: with a context whose `steps` is a sequence of
step results, the reference `steps.0.v` resolves to the contained
value, not to undefined. -/
theorem template_path_sequence_counterexample :
    getNestedValue (JsValue.obj [("steps", JsValue.arr [JsValue.obj [("v", JsValue.str "A")]])])
      "steps.0.v" = some (JsValue.str "A")
    ∧ getNestedValue (JsValue.obj [("steps", JsValue.arr [JsValue.obj [("v", JsValue.str "A")]])])
        "steps.0.v" ≠ none := by
  have h : getNestedValue
      (JsValue.obj [("steps", JsValue.arr [JsValue.obj [("v", JsValue.str "A")]])])
      "steps.0.v" = some (JsValue.str "A") := rfl
  exact ⟨h, by rw [h]; exact Option.some_ne_none _⟩

/-- C4 witness: the amended statement at concrete inputs (index `1` of
a two-element sequence, and a primitive halting with undefined). -/
theorem template_path_sequence_witness :
    getNestedGo (some (JsValue.arr [JsValue.str "X", JsValue.str "Y"])) ("1" :: [])
      = getNestedGo (some (JsValue.str "Y")) []
    ∧ parseArrayIndex "1" = some 1
    ∧ getNestedGo (some (JsValue.str "s")) ("a" :: []) = none :=
  ⟨template_path_sequence_indexing.1 [JsValue.str "X", JsValue.str "Y"] "1" 1 [] rfl
      (by decide),
   rfl,
   template_path_sequence_indexing.2.2.1 (JsValue.str "s") "a" [] rfl⟩

/-- C6 counterexample: a step-input value with a reference embedded in
a larger string is passed through verbatim — the substring is not
replaced by the referenced value. -/
theorem step_input_interpolation_counterexample :
    resolveTemplates [("greeting", "hi \x7b\x7bpayload.x\x7d\x7d")]
        (JsValue.obj [("payload", JsValue.obj [("x", JsValue.str "A")])])
      = [("greeting", some (JsValue.str "hi \x7b\x7bpayload.x\x7d\x7d"))]
    ∧ ("hi \x7b\x7bpayload.x\x7d\x7d" : String) ≠ "hi A" :=
  ⟨rfl, by decide⟩

/-- C6 (amended): step-input template resolution substitutes only
whole-string templates; a field value that is not entirely a single
reference is kept verbatim, embedded references and all (substring
interpolation does not apply to step inputs). -/
theorem step_input_no_interpolation :
    (∀ (input : List (String × String)) (context : JsValue) (k v : String),
        (k, v) ∈ input → isWholeTemplate v = false →
        (k, some (JsValue.str v)) ∈ resolveTemplates input context)
    ∧ (∀ (input : List (String × String)) (context : JsValue) (k v : String),
        (k, v) ∈ input → isWholeTemplate v = true →
        (k, getNestedValue context (templatePath v)) ∈ resolveTemplates input context)
    ∧ (∀ (v : String) (context : JsValue),
        isWholeTemplate v = false → resolveEntry v context = some (JsValue.str v)) := by
  refine ⟨?_, ?_, ?_⟩
  · intro input context k v hmem hv
    have h := List.mem_map_of_mem (fun kv : String × String => (kv.1, resolveEntry kv.2 context)) hmem
    simpa [resolveTemplates, resolveEntry, hv] using h
  · intro input context k v hmem hv
    have h := List.mem_map_of_mem (fun kv : String × String => (kv.1, resolveEntry kv.2 context)) hmem
    simpa [resolveTemplates, resolveEntry, hv] using h
  · intro v context hv
    simp [resolveEntry, hv]

/-- C6 witness: the amended statement at a concrete input mapping with
one literal field and one whole-string template field. -/
theorem step_input_no_interpolation_witness :
    ("a", some (JsValue.str "x"))
      ∈ resolveTemplates [("a", "x"), ("b", "\x7b\x7bpayload.y\x7d\x7d")]
          (JsValue.obj [("payload", JsValue.obj [("y", JsValue.num 7)])])
    ∧ ("b", some (JsValue.num 7))
      ∈ resolveTemplates [("a", "x"), ("b", "\x7b\x7bpayload.y\x7d\x7d")]
          (JsValue.obj [("payload", JsValue.obj [("y", JsValue.num 7)])])
    ∧ resolveEntry "x" (JsValue.obj [])  = some (JsValue.str "x") :=
  ⟨step_input_no_interpolation.1 _ _ "a" "x" (List.mem_cons_self _ _) rfl,
   step_input_no_interpolation.2.1 _ _ "b" "\x7b\x7bpayload.y\x7d\x7d"
     (List.mem_cons_of_mem _ (List.mem_cons_self _ _)) rfl,
   step_input_no_interpolation.2.2 "x" (JsValue.obj []) rfl⟩

/-- C7: the effect dispatcher processes every record of the list in
declaration order — the outcome list is index-aligned with the effect
list, dispatch of a record depends only on that record, appending more
records never changes earlier outcomes, and a handler error is caught
into the record's outcome instead of propagating, so all later
handlers still run. -/
theorem effect_dispatcher_resilience :
    (∀ (handlerFor : String → Option (Effect → EffectContext → Except String Unit))
        (ctx : EffectContext) (effects : List Effect),
        (runEffects handlerFor ctx effects).length = effects.length)
    ∧ (∀ (handlerFor : String → Option (Effect → EffectContext → Except String Unit))
        (ctx : EffectContext) (es1 es2 : List Effect),
        runEffects handlerFor ctx (es1 ++ es2)
          = runEffects handlerFor ctx es1 ++ runEffects handlerFor ctx es2)
    ∧ (∀ (handlerFor : String → Option (Effect → EffectContext → Except String Unit))
        (ctx : EffectContext) (effects : List Effect) (k : Nat) (hk : k < effects.length),
        (runEffects handlerFor ctx effects).get? k
          = some (dispatchEffect handlerFor ctx (effects.get ⟨k, hk⟩)))
    ∧ (∀ (handlerFor : String → Option (Effect → EffectContext → Except String Unit))
        (ctx : EffectContext) (e : Effect) (h : Effect → EffectContext → Except String Unit)
        (msg : String),
        handlerFor e.event = some h → h e ctx = .error msg →
        dispatchEffect handlerFor ctx e = .ran e.event (some msg)) := by
  refine ⟨?_, ?_, ?_, ?_⟩
  · intro handlerFor ctx effects
    induction effects with
    | nil => rfl
    | cons e rest ih => simp [runEffects, ih]
  · intro handlerFor ctx es1 es2
    induction es1 with
    | nil => rfl
    | cons e rest ih => simp [runEffects, ih]
  · intro handlerFor ctx effects
    induction effects with
    | nil => intro k hk; exact absurd hk (by simp)
    | cons e rest ih =>
      intro k hk
      cases k with
      | zero => rfl
      | succ n => exact ih n (by simpa using hk)
  · intro handlerFor ctx e h msg hh he
    simp [dispatchEffect, hh, he]

/-- C7 witness: the dispatcher theorem at a concrete handler table and
a concrete effect list in which the second handler raises and the last
record has an unknown kind. -/
theorem effect_dispatcher_resilience_witness :
    (runEffects sampleHandlers sampleEffectContext sampleEffects).length = sampleEffects.length
    ∧ (runEffects sampleHandlers sampleEffectContext sampleEffects).get? 3
        = some (dispatchEffect sampleHandlers sampleEffectContext { event := "bogus" })
    ∧ dispatchEffect sampleHandlers sampleEffectContext { event := "webhook" }
        = .ran "webhook" (some "http 500") :=
  ⟨effect_dispatcher_resilience.1 sampleHandlers sampleEffectContext sampleEffects,
   effect_dispatcher_resilience.2.2.1 sampleHandlers sampleEffectContext sampleEffects 3
     (by decide),
   effect_dispatcher_resilience.2.2.2 sampleHandlers sampleEffectContext
     { event := "webhook" } (fun _ _ => .error "http 500") "http 500" rfl rfl⟩

/-- C9: enqueueing always derives a broker attempt count of at least 1,
and a job with no retry policy is enqueued with `attempts = 3` and
fixed backoff of 1000 ms. -/
theorem enqueue_default_retry :
    (∀ task : Task, 1 ≤ (enqueueJobOptions task).attempts)
    ∧ (∀ task : Task, task.retry = none →
        (enqueueJobOptions task).attempts = 3
        ∧ (enqueueJobOptions task).backoffType = Backoff.fixed
        ∧ (enqueueJobOptions task).backoffDelay = 1000) := by
  constructor
  · intro task
    cases h : task.retry with
    | none => simp [enqueueJobOptions, h]
    | some r =>
      by_cases hr : r.attempts = 0
      · simp [enqueueJobOptions, h, hr]
      · simp only [enqueueJobOptions, h]
        rw [if_neg hr]
        omega
  · intro task h
    simp [enqueueJobOptions, h]

/-- C9 witness: a job with no retry policy gets attempts 3, fixed
backoff, delay 1000. -/
theorem enqueue_default_retry_witness :
    1 ≤ (enqueueJobOptions { type := "t" }).attempts
    ∧ ((enqueueJobOptions { type := "t" }).attempts = 3
        ∧ (enqueueJobOptions { type := "t" }).backoffType = Backoff.fixed
        ∧ (enqueueJobOptions { type := "t" }).backoffDelay = 1000) :=
  ⟨enqueue_default_retry.1 { type := "t" }, enqueue_default_retry.2 { type := "t" } rfl⟩

/-- Indexed map preserves length. -/
theorem mapIdxFrom_length (f : Nat → α → β) (s : Nat) (l : List α) :
    (mapIdxFrom f s l).length = l.length := by
  induction l generalizing s with
  | nil => rfl
  | cons a l ih => simp [mapIdxFrom, ih]

/-- Element `k` of an indexed map is `f` applied at offset `s + k`. -/
theorem mapIdxFrom_get? (f : Nat → α → β) (s : Nat) (l : List α) (k : Nat)
    (hk : k < l.length) :
    (mapIdxFrom f s l).get? k = some (f (s + k) (l.get ⟨k, hk⟩)) := by
  induction l generalizing s k with
  | nil => exact absurd hk (by simp)
  | cons a l ih =>
    cases k with
    | zero => simp [mapIdxFrom]
    | succ n =>
      have h : s + 1 + n = s + (n + 1) := by omega
      simpa [mapIdxFrom, h] using ih (s + 1) n (by simpa using hk)

/-- An indexed map splits at any take/drop point, with the offset
advanced by the prefix length. -/
theorem mapIdxFrom_take_drop (f : Nat → α → β) (s c : Nat) (l : List α) :
    mapIdxFrom f s l
      = mapIdxFrom f s (l.take c) ++ mapIdxFrom f (s + (l.take c).length) (l.drop c) := by
  induction c generalizing s l with
  | zero => simp [mapIdxFrom]
  | succ c ih =>
    cases l with
    | nil => simp [mapIdxFrom]
    | cons a l =>
      simp only [List.take_succ_cons, List.drop_succ_cons, mapIdxFrom, List.length_cons,
        List.cons_append, List.cons.injEq, true_and]
      have h : s + ((l.take c).length + 1) = s + 1 + (l.take c).length := by omega
      rw [h]
      exact ih (s + 1) l

/-- Batched execution visits the items exactly once, in order, with the
global index: the chunked run equals the indexed map, for every batch
size. -/
theorem runForEachGo_chunksGo (f : Nat → α → β) (c : Nat) :
    ∀ (fuel : Nat) (l : List α) (start : Nat),
      runForEachGo f start (chunksGo c fuel l) = mapIdxFrom f start l := by
  intro fuel
  induction fuel with
  | zero =>
    intro l start
    cases l with
    | nil => rfl
    | cons a l => simp [chunksGo, runForEachGo]
  | succ fuel ih =>
    intro l start
    cases l with
    | nil => rfl
    | cons a l =>
      simp only [chunksGo, runForEachGo]
      rw [ih, ← mapIdxFrom_take_drop]

/-- `runForEach` equals the plain indexed map for every concurrency. -/
theorem runForEach_eq_mapIdxFrom (f : Nat → α → β) (items : List α) (c : Nat) :
    runForEach f items c = mapIdxFrom f 0 items :=
  runForEachGo_chunksGo f c items.length items 0

/-- Collecting item outcomes that all succeed yields the ordered list
of their values. -/
theorem collectResults_mapIdxFrom_ok (f : Nat → JsValue → Except String JsValue)
    (g : Nat → JsValue) :
    ∀ (l : List JsValue) (s : Nat),
      (∀ k (hk : k < l.length), f (s + k) (l.get ⟨k, hk⟩) = .ok (g (s + k))) →
      collectResults (mapIdxFrom f s l) = .ok (mapIdxFrom (fun k _ => g k) s l) := by
  intro l
  induction l with
  | nil => intro s _; rfl
  | cons a l ih =>
    intro s h
    have h0 : f s a = .ok (g s) := by simpa using h 0 (by simp)
    have hrest : ∀ k (hk : k < l.length), f (s + 1 + k) (l.get ⟨k, hk⟩) = .ok (g (s + 1 + k)) := by
      intro k hk
      have harith : s + (k + 1) = s + 1 + k := by omega
      have := h (k + 1) (by simpa using Nat.succ_lt_succ hk)
      simpa [harith] using this
    simp only [mapIdxFrom, collectResults, h0, ih (s + 1) hrest]

/-- Looking the assigned key up after a record assignment yields the
assigned value. -/
theorem lookupAssoc_setResult (id : String) (v : JsValue) :
    ∀ rs, lookupAssoc (setResult rs id v) id = some v := by
  intro rs
  induction rs with
  | nil => simp [setResult, lookupAssoc]
  | cons p rs ih =>
    by_cases hp : p.1 = id
    · simp [setResult, List.any_cons, hp, lookupAssoc]
    · by_cases ha : (rs.any fun q => decide (q.1 = id)) = true
      · have hs : setResult (p :: rs) id v
            = p :: List.map (fun q => if q.1 = id then (id, v) else q) rs := by
          simp [setResult, List.any_cons, ha, hp]
        have hs' : setResult rs id v
            = List.map (fun q => if q.1 = id then (id, v) else q) rs := by
          simp [setResult, ha]
        rw [hs'] at ih
        rw [hs]
        simpa [lookupAssoc, hp] using ih
      · have ha' : (rs.any fun q => decide (q.1 = id)) = false := by
          revert ha; cases rs.any fun q => decide (q.1 = id) <;> simp
        have hs : setResult (p :: rs) id v = p :: (rs ++ [(id, v)]) := by
          simp [setResult, List.any_cons, ha', hp]
        have hs' : setResult rs id v = rs ++ [(id, v)] := by
          simp [setResult, ha']
        rw [hs'] at ih
        rw [hs]
        simpa [lookupAssoc, hp] using ih

/-- C5: when a step's forEach template resolves to a sequence of `n`
elements and every per-item execution succeeds, the step's recorded
result is the sequence of exactly `n` per-item results, entry `k`
being the result produced for element `k`, for every value of
`forEachConcurrency`. -/
theorem forEach_arity_order (behavior : StepTask → Nat → Except String JsValue)
    (task : Task) (snapshot : List (String × JsValue)) (st : DagState) (id : String)
    (step : Step) (tmpl : String) (items : List JsValue) (g : Nat → JsValue)
    (hfe : step.forEach = some tmpl)
    (hres : resolveTemplate tmpl (dagContext task snapshot) = some (.arr items))
    (hitems : ∀ k (hk : k < items.length),
        itemExec behavior task snapshot step k (items.get ⟨k, hk⟩) = .ok (g k)) :
    lookupAssoc ((executeStep behavior task snapshot st id step).1).results id
      = some (.arr (mapIdxFrom (fun k _ => g k) 0 items))
    ∧ (mapIdxFrom (fun k _ => g k) 0 items).length = items.length
    ∧ ∀ k (hk : k < items.length),
        (mapIdxFrom (fun k _ => g k) 0 items).get? k = some (g k) := by
  have houtcome : stepExecOutcome behavior task snapshot step
      = .ok (.arr (mapIdxFrom (fun k _ => g k) 0 items)) := by
    simp only [stepExecOutcome, hfe, hres]
    rw [runForEach_eq_mapIdxFrom,
      collectResults_mapIdxFrom_ok (itemExec behavior task snapshot step) g items 0
        (by simpa using hitems)]
  refine ⟨?_, mapIdxFrom_length _ _ _, ?_⟩
  · simp only [executeStep, houtcome, recordSuccess]
    exact lookupAssoc_setResult _ _ _
  · intro k hk
    rw [mapIdxFrom_get? (fun k _ => g k) 0 items k hk]
    simp

/-- C5 witness: the forEach theorem at the concrete three-item pipeline
with concurrency 2 under the echo backend. -/
theorem forEach_arity_order_witness :
    lookupAssoc ((executeStep echoBackend forEachTask []
          (initState (stepEntries forEachTask.steps)) "p" forEachStep).1).results "p"
      = some (.arr (mapIdxFrom (fun k _ => forEachExpected k) 0
          [JsValue.num 10, JsValue.num 20, JsValue.num 30]))
    ∧ (mapIdxFrom (fun k _ => forEachExpected k) 0
        [JsValue.num 10, JsValue.num 20, JsValue.num 30]).length = 3
    ∧ ∀ k (hk : k < ([JsValue.num 10, JsValue.num 20, JsValue.num 30] : List JsValue).length),
        (mapIdxFrom (fun k _ => forEachExpected k) 0
          [JsValue.num 10, JsValue.num 20, JsValue.num 30]).get? k
          = some (forEachExpected k) :=
  forEach_arity_order echoBackend forEachTask []
    (initState (stepEntries forEachTask.steps)) "p" forEachStep
    "\x7b\x7bpayload.items\x7d\x7d" [JsValue.num 10, JsValue.num 20, JsValue.num 30]
    forEachExpected rfl rfl
    (by
      intro k hk
      have hk3 : k < 3 := by simpa using hk
      interval_cases k <;> rfl)

/-- A list whose `(n+1)`-prefix is `l ++ [a]` has `l` as its
`n`-prefix (`n = l.length`). -/
theorem take_of_take_concat (xs l : List α) (a : α)
    (h : xs.take (l.length + 1) = l ++ [a]) : xs.take l.length = l := by
  have h' := congrArg (fun t => List.take l.length t) h
  simp only [List.take_take] at h'
  rw [min_eq_left (by omega)] at h'
  rw [List.take_left] at h'
  exact h'

/-- A list whose `(n+1)`-prefix is `l ++ [a]` has `a` at index `n`
(`n = l.length`). -/
theorem get?_of_take_concat (xs l : List α) (a : α)
    (h : xs.take (l.length + 1) = l ++ [a]) : xs.get? l.length = some a := by
  have hlt : l.length < l.length + 1 := by omega
  rw [← List.get?_take hlt, h, List.get?_concat_length]

/-- The sequential invariant holds trivially over no steps. -/
theorem seqInv_nil (task : Task) (st : SeqState) : SeqInv task [] st st := by
  refine ⟨by simp, by simp, by simp, List.take_length _, List.take_length _,
    List.take_length _, ?_, ?_⟩
  · intro k hk; exact absurd hk (by simp)
  · intro k hk; exact absurd hk (by simp)

/-- Extending the sequential invariant by one executed step: the loop
appended this step's context, invocation and result (of whatever value)
before continuing over the remaining steps. -/
theorem seqInv_extend (task : Task) (step : Step) (l : List Step) (w : JsValue)
    (st st2 st' : SeqState)
    (h2r : st2.results = st.results ++ [w])
    (h2c : st2.contexts = st.contexts ++ [seqStepContext task.payload st.results])
    (h2i : st2.invocations = st.invocations
        ++ [mkStepTask task step (resolveTemplates step.input (seqStepContext task.payload st.results))])
    (h : SeqInv task l st2 st') :
    SeqInv task (step :: l) st st' := by
  obtain ⟨h1, h2, h3, h4, h5, h6, h7, h8⟩ := h
  rw [h2r] at h1 h4 h7 h8
  rw [h2c] at h2 h5 h7
  rw [h2i] at h3 h6 h8
  simp only [List.length_append, List.length_cons, List.length_nil,
    Nat.zero_add] at h1 h2 h3 h4 h5 h6 h7 h8
  have g4 : st'.results.take st.results.length = st.results :=
    take_of_take_concat _ _ _ h4
  have g5 : st'.contexts.take st.contexts.length = st.contexts :=
    take_of_take_concat _ _ _ h5
  have g6 : st'.invocations.take st.invocations.length = st.invocations :=
    take_of_take_concat _ _ _ h6
  refine ⟨by simp [List.length_cons]; omega, by simp [List.length_cons]; omega,
    by simp [List.length_cons]; omega, g4, g5, g6, ?_, ?_⟩
  · intro k hk
    cases k with
    | zero =>
      simp only [Nat.add_zero]
      rw [get?_of_take_concat _ _ _ h5, g4]
    | succ n =>
      have hn : n < l.length := by simpa [List.length_cons] using hk
      have ea : st.contexts.length + (n + 1) = st.contexts.length + 1 + n := by omega
      have eb : st.results.length + (n + 1) = st.results.length + 1 + n := by omega
      rw [ea, eb]
      exact h7 n hn
  · intro k hk
    cases k with
    | zero =>
      simp only [Nat.add_zero, List.get]
      rw [get?_of_take_concat _ _ _ h6, g4]
    | succ n =>
      have hn : n < l.length := by simpa [List.length_cons] using hk
      have ea : st.invocations.length + (n + 1) = st.invocations.length + 1 + n := by omega
      have eb : st.results.length + (n + 1) = st.results.length + 1 + n := by omega
      rw [ea, eb]
      simpa [List.get] using h8 n hn

/-- Every successful sequential loop satisfies the sequential
invariant. -/
theorem seqGo_inv (behavior : StepTask → Nat → Except String JsValue) (task : Task) :
    ∀ (l : List Step) (i : Nat) (st st' : SeqState),
      seqGo behavior task l i st = .ok st' → SeqInv task l st st' := by
  intro l
  induction l with
  | nil =>
    intro i st st' h
    simp only [seqGo] at h
    injection h with h'
    subst h'
    exact seqInv_nil task st
  | cons step l ih =>
    intro i st st' h
    simp only [seqGo] at h
    split at h
    · exact seqInv_extend task step l _ st _ st' rfl rfl rfl (ih _ _ _ h)
    · split at h
      · exact seqInv_extend task step l _ st _ st' rfl rfl rfl (ih _ _ _ h)
      · exact absurd h (by simp)

/-- The sequential loop never reads the forEach fields of its steps:
stripping them changes nothing. -/
theorem seqGo_clearForEach (behavior : StepTask → Nat → Except String JsValue) (task : Task) :
    ∀ (l : List Step) (i : Nat) (st : SeqState),
      seqGo behavior task (l.map clearForEach) i st = seqGo behavior task l i st := by
  intro l
  induction l with
  | nil => intro i st; rfl
  | cons step l ih =>
    intro i st
    simp only [List.map_cons, seqGo]
    rw [show (clearForEach step).input = step.input from rfl,
      show (clearForEach step).optional = step.optional from rfl,
      show mkStepTask task (clearForEach step) = mkStepTask task step from rfl,
      show seqStatus i (clearForEach step) = seqStatus i step from rfl]
    simp only [ih]

/-- C10: a pipeline whose steps declare no id and no non-empty
dependsOn is routed to the sequential executor; that executor ignores
forEach and forEachConcurrency entirely, and on a successful run
executes every step exactly once — one child task per step, in order,
its input resolved against a context that binds neither `item` nor
`index`. -/
theorem sequential_route_ignores_forEach :
    (∀ (behavior : StepTask → Nat → Except String JsValue)
        (singleBehavior : Task → Nat → Except String JsValue) (task : Task),
        task.steps ≠ [] → (∀ s ∈ task.steps, s.id = none ∧ s.dependsOn = []) →
        processTask behavior singleBehavior task
          = .sequentialMode (processPipelineSequential behavior task))
    ∧ (∀ (behavior : StepTask → Nat → Except String JsValue) (task : Task)
        (l : List Step) (i : Nat) (st : SeqState),
        seqGo behavior task (l.map clearForEach) i st = seqGo behavior task l i st)
    ∧ (∀ (behavior : StepTask → Nat → Except String JsValue) (task : Task)
        (st' : SeqState),
        seqGo behavior task task.steps 0 {} = .ok st' →
        st'.invocations.length = task.steps.length
        ∧ ∀ k (hk : k < task.steps.length),
            st'.invocations.get? k
              = some (mkStepTask task (task.steps.get ⟨k, hk⟩)
                  (resolveTemplates (task.steps.get ⟨k, hk⟩).input
                    (seqStepContext task.payload (st'.results.take k)))))
    ∧ (∀ (payload : JsValue) (prior : List JsValue),
        getNestedValue (seqStepContext payload prior) "item" = none
        ∧ getNestedValue (seqStepContext payload prior) "index" = none) := by
  refine ⟨?_, ?_, ?_, ?_⟩
  · intro behavior singleBehavior task hne hplain
    have hlen : (task.steps.length != 0) = true := by
      simp only [bne_iff_ne, ne_eq]
      intro h0
      exact hne (List.length_eq_zero.mp h0)
    have hdep : hasDependencies task.steps = false := by
      simp only [hasDependencies, List.any_eq_false]
      intro s hs
      obtain ⟨hid, hdeps⟩ := hplain s hs
      simp [hid, hdeps, stepTruthyId]
    simp [processTask, hlen, hdep]
  · exact seqGo_clearForEach
  · intro behavior task st' h
    obtain ⟨_, _, h3, _, _, _, _, h8⟩ := seqGo_inv behavior task task.steps 0 {} st' h
    refine ⟨by simpa using h3, ?_⟩
    intro k hk
    have := h8 k hk
    simpa using this
  · intro payload prior
    exact ⟨rfl, rfl⟩

/-- C10 witness: the routing and the forEach-ignoring statement at a
concrete one-step pipeline whose step carries forEach fields but no id
and no dependencies, run under the echo backend. -/
theorem sequential_route_ignores_forEach_witness :
    processTask echoBackend (fun t _ => .ok t.payload) seqForEachTask
      = .sequentialMode (processPipelineSequential echoBackend seqForEachTask)
    ∧ seqGo echoBackend seqForEachTask (seqForEachTask.steps.map clearForEach) 0 {}
        = seqGo echoBackend seqForEachTask seqForEachTask.steps 0 {}
    ∧ (okStateD (seqGo echoBackend seqForEachTask seqForEachTask.steps 0 {})).invocations.length
        = seqForEachTask.steps.length
    ∧ getNestedValue (seqStepContext (JsValue.obj [("x", JsValue.str "A")]) []) "item" = none :=
  ⟨sequential_route_ignores_forEach.1 echoBackend (fun t _ => .ok t.payload) seqForEachTask
      (List.cons_ne_nil _ _)
      (by
        intro s hs
        simp only [seqForEachTask] at hs
        rw [List.mem_singleton] at hs
        subst hs
        exact ⟨rfl, rfl⟩),
   sequential_route_ignores_forEach.2.1 echoBackend seqForEachTask seqForEachTask.steps 0 {},
   (sequential_route_ignores_forEach.2.2.1 echoBackend seqForEachTask
      (okStateD (seqGo echoBackend seqForEachTask seqForEachTask.steps 0 {})) rfl).1,
   (sequential_route_ignores_forEach.2.2.2 (JsValue.obj [("x", JsValue.str "A")]) []).1⟩

/-- Walking `undefined` yields `undefined` whatever the remaining
path. -/
theorem getNestedGo_none (parts : List String) : getNestedGo none parts = none := by
  cases parts <;> rfl

/-- C8 counterexample: in sequential mode, a later step referencing the
first result as `steps.0.v` receives the value, but referencing it as
`steps.step_0.v` receives `undefined` — the `step_<i>` key form does
not work in the resolution context. -/
theorem sequential_step_key_counterexample :
    seqInvocationPayload (processPipelineSequential echoBackend seqTaskIdx) 1
      = some [("prev", some (JsValue.str "A"))]
    ∧ seqInvocationPayload (processPipelineSequential echoBackend seqTaskKey) 1
      = some [("prev", none)]
    ∧ (none : Option JsValue) ≠ some (JsValue.str "A") :=
  ⟨rfl, rfl, by simp⟩

/-- C8 (amended): in sequential mode each completed step's raw result
is exposed in the resolution context only by numeric index — the
context of step `k` is the payload together with the sequence of the
previous raw results, in which a canonical in-bounds numeric segment
selects a previous result while any other segment (in particular a
generated `step_<i>`-style key, which is neither an index nor
`length`) resolves to undefined; the `step_<i>` keys appear only in
the `stepResults` record of the returned pipeline result. -/
theorem sequential_context_numeric_only :
    (∀ (behavior : StepTask → Nat → Except String JsValue) (task : Task) (out : SeqOutput),
        processPipelineSequential behavior task = .ok out →
        out.stepResults = mapIdxFrom (fun i v => ("step_" ++ Nat.repr i, v)) 0 out.steps
        ∧ out.state.contexts.length = task.steps.length
        ∧ ∀ k, k < task.steps.length →
            out.state.contexts.get? k
              = some (seqStepContext task.payload (out.steps.take k)))
    ∧ (∀ (payload : JsValue) (prior : List JsValue) (seg : String) (j : Nat)
        (rest : List String),
        parseArrayIndex seg = some j → ∀ (h : j < prior.length),
        getNestedGo (some (seqStepContext payload prior)) ("steps" :: seg :: rest)
          = getNestedGo (some (prior.get ⟨j, h⟩)) rest)
    ∧ (∀ (payload : JsValue) (prior : List JsValue) (seg : String) (rest : List String),
        parseArrayIndex seg = none → seg ≠ "length" →
        getNestedGo (some (seqStepContext payload prior)) ("steps" :: seg :: rest) = none) := by
  refine ⟨?_, ?_, ?_⟩
  · intro behavior task out h
    simp only [processPipelineSequential] at h
    split at h
    · exact absurd h (by simp)
    · rename_i st hst
      injection h with h'
      subst h'
      obtain ⟨_, h2, _, _, _, _, h7, _⟩ := seqGo_inv behavior task task.steps 0 {} st hst
      refine ⟨rfl, by simpa using h2, ?_⟩
      intro k hk
      have := h7 k hk
      simpa using this
  · intro payload prior seg j rest hseg h
    have hctx : getNestedGo (some (seqStepContext payload prior)) ("steps" :: seg :: rest)
        = getNestedGo (some (JsValue.arr prior)) (seg :: rest) := by
      simp [seqStepContext, getNestedGo, isJsObject, jsMember, lookupField]
    rw [hctx]
    exact getNestedGo_arr_index prior seg j rest hseg h
  · intro payload prior seg rest hseg hlen
    have hctx : getNestedGo (some (seqStepContext payload prior)) ("steps" :: seg :: rest)
        = getNestedGo (some (JsValue.arr prior)) (seg :: rest) := by
      simp [seqStepContext, getNestedGo, isJsObject, jsMember, lookupField]
    rw [hctx]
    simp only [getNestedGo, isJsObject, jsMember, if_neg hlen, hseg]
    exact getNestedGo_none rest

/-- C8 witness: the amended statement at the concrete two-step echo
pipeline and at concrete context lookups (numeric segment `0` hits the
previous result; the `step_0` key resolves to undefined). -/
theorem sequential_context_numeric_only_witness :
    ((okOutD (processPipelineSequential echoBackend seqTaskIdx)).stepResults
        = mapIdxFrom (fun i v => ("step_" ++ Nat.repr i, v)) 0
            (okOutD (processPipelineSequential echoBackend seqTaskIdx)).steps)
    ∧ getNestedGo (some (seqStepContext (JsValue.obj []) [JsValue.str "R"])) ("steps" :: "0" :: [])
        = getNestedGo (some (JsValue.str "R")) []
    ∧ getNestedGo (some (seqStepContext (JsValue.obj []) [JsValue.str "R"]))
        ("steps" :: "step_0" :: []) = none :=
  ⟨(sequential_context_numeric_only.1 echoBackend seqTaskIdx
      (okOutD (processPipelineSequential echoBackend seqTaskIdx)) rfl).1,
   sequential_context_numeric_only.2.1 (JsValue.obj []) [JsValue.str "R"] "0" 0 [] rfl
     (by decide),
   sequential_context_numeric_only.2.2 (JsValue.obj []) [JsValue.str "R"] "step_0" [] rfl
     (by decide)⟩

/-- Updating one status-map entry changes the looked-up value of that
key by the update function. -/
theorem lookupAssoc_setStatus_self (id : String) (f : StepStatus → StepStatus) :
    ∀ sts, lookupAssoc (setStatus sts id f) id = (lookupAssoc sts id).map f := by
  intro sts
  induction sts with
  | nil => rfl
  | cons p sts ih =>
    simp only [setStatus, List.map_cons] at ih ⊢
    by_cases hp : p.1 = id
    · rw [if_pos hp]
      simp only [lookupAssoc]
      rw [if_pos hp, if_pos hp]
      rfl
    · rw [if_neg hp]
      simp only [lookupAssoc]
      rw [if_neg hp, if_neg hp]
      exact ih

/-- Updating one status-map entry leaves every other key's value
unchanged. -/
theorem lookupAssoc_setStatus_other (id j : String) (f : StepStatus → StepStatus)
    (hne : j ≠ id) :
    ∀ sts, lookupAssoc (setStatus sts id f) j = lookupAssoc sts j := by
  intro sts
  induction sts with
  | nil => rfl
  | cons p sts ih =>
    simp only [setStatus, List.map_cons] at ih ⊢
    by_cases hp : p.1 = id
    · have hpj : ¬(p.1 = j) := by rw [hp]; exact fun h => hne h.symm
      rw [if_pos hp]
      simp only [lookupAssoc]
      rw [if_neg hpj, if_neg hpj]
      exact ih
    · rw [if_neg hp]
      simp only [lookupAssoc]
      by_cases hpj : p.1 = j
      · rw [if_pos hpj, if_pos hpj]
      · rw [if_neg hpj, if_neg hpj]
        exact ih

/-- Record assignment leaves every other key's value unchanged. -/
theorem lookupAssoc_map_overwrite_other (id j : String) (v : JsValue) (hne : j ≠ id) :
    ∀ rs : List (String × JsValue),
      lookupAssoc (rs.map (fun q => if q.1 = id then (id, v) else q)) j = lookupAssoc rs j := by
  intro rs
  induction rs with
  | nil => rfl
  | cons p rs ih =>
    have hij : ¬(id = j) := fun h => hne h.symm
    simp only [List.map_cons]
    by_cases hp : p.1 = id
    · rw [if_pos hp]
      simp only [lookupAssoc]
      rw [if_neg hij, if_neg (by rw [hp]; exact hij)]
      exact ih
    · rw [if_neg hp]
      simp only [lookupAssoc]
      by_cases hpj : p.1 = j
      · rw [if_pos hpj, if_pos hpj]
      · rw [if_neg hpj, if_neg hpj]
        exact ih

/-- Appending an entry for another key does not affect a lookup. -/
theorem lookupAssoc_append_other (id j : String) (v : JsValue) (hne : j ≠ id) :
    ∀ rs : List (String × JsValue),
      lookupAssoc (rs ++ [(id, v)]) j = lookupAssoc rs j := by
  intro rs
  induction rs with
  | nil =>
    simp only [List.nil_append, lookupAssoc]
    rw [if_neg (fun h : id = j => hne h.symm)]
  | cons p rs ih =>
    simp only [List.cons_append, lookupAssoc]
    by_cases hpj : p.1 = j
    · rw [if_pos hpj, if_pos hpj]
    · rw [if_neg hpj, if_neg hpj]
      exact ih

/-- Record assignment leaves every other key's value unchanged. -/
theorem lookupAssoc_setResult_other (id j : String) (v : JsValue) (hne : j ≠ id) :
    ∀ rs, lookupAssoc (setResult rs id v) j = lookupAssoc rs j := by
  intro rs
  by_cases ha : (rs.any fun q => decide (q.1 = id)) = true
  · have hs : setResult rs id v = rs.map (fun q => if q.1 = id then (id, v) else q) := by
      simp [setResult, ha]
    rw [hs]
    exact lookupAssoc_map_overwrite_other id j v hne rs
  · have hs : setResult rs id v = rs ++ [(id, v)] := by
      have ha' : (rs.any fun q => decide (q.1 = id)) = false := by
        revert ha; cases rs.any fun q => decide (q.1 = id) <;> simp
      simp [setResult, ha']
    rw [hs]
    exact lookupAssoc_append_other id j v hne rs

/-- The id is a member of the completed set after insertion. -/
theorem mem_insertUnique (l : List String) (id : String) : id ∈ insertUnique l id := by
  simp only [insertUnique]
  by_cases h : l.contains id = true
  · rw [if_pos h]
    exact List.elem_iff.mp h
  · rw [if_neg h]
    exact List.mem_append_right _ (by simp)

/-- Insertion preserves existing members. -/
theorem mem_insertUnique_of_mem (l : List String) (id j : String) (h : j ∈ l) :
    j ∈ insertUnique l id := by
  simp only [insertUnique]
  by_cases hc : l.contains id = true
  · rw [if_pos hc]; exact h
  · rw [if_neg hc]; exact List.mem_append_left _ h

/-- `canRun` as a proposition: not yet running / completed / failed,
and every dependency completed. -/
theorem canRun_iff (st : DagState) (id : String) (s : Step) :
    canRun st id s = true ↔
      (id ∉ st.running ∧ id ∉ st.completed ∧ id ∉ st.failed
        ∧ ∀ d ∈ s.dependsOn, d ∈ st.completed) := by
  simp only [canRun]
  by_cases h : (st.running.contains id || st.completed.contains id
      || st.failed.contains id) = true
  · rw [if_pos h]
    simp only [Bool.or_eq_true, List.contains, List.elem_iff] at h
    constructor
    · intro hfalse; exact absurd hfalse (by simp)
    · rintro ⟨h1, h2, h3, _⟩
      rcases h with (h | h) | h
      · exact absurd h h1
      · exact absurd h h2
      · exact absurd h h3
  · rw [if_neg h]
    simp only [Bool.or_eq_true, List.contains, List.elem_iff, not_or] at h
    obtain ⟨⟨h1, h2⟩, h3⟩ := h
    simp only [List.all_eq_true, List.contains, List.elem_iff]
    constructor
    · intro hd; exact ⟨h1, h2, h3, hd⟩
    · rintro ⟨_, _, _, hd⟩; exact hd

/-- C2: a DAG step is runnable exactly when it is not in running /
completed / failed and every dependency id is in the completed set;
a failed optional step is recorded as completed (status `skipped`,
result the skip object) and reports no error to the scheduler, and
consequently a dependent of the skipped step that is still fresh is
runnable. -/
theorem dag_readiness_skip_transparent :
    (∀ (st : DagState) (id : String) (s : Step),
        canRun st id s = true ↔
          (id ∉ st.running ∧ id ∉ st.completed ∧ id ∉ st.failed
            ∧ ∀ d ∈ s.dependsOn, d ∈ st.completed))
    ∧ (∀ (behavior : StepTask → Nat → Except String JsValue) (task : Task)
        (snapshot : List (String × JsValue)) (st : DagState) (id : String) (s : Step)
        (msg : String),
        s.optional = true → stepExecOutcome behavior task snapshot s = .error msg →
        (executeStep behavior task snapshot st id s).2 = none
        ∧ id ∈ ((executeStep behavior task snapshot st id s).1).completed
        ∧ lookupAssoc ((executeStep behavior task snapshot st id s).1).results id
            = some (skippedResult msg)
        ∧ ∀ ss, lookupAssoc st.statuses id = some ss →
            lookupAssoc ((executeStep behavior task snapshot st id s).1).statuses id
              = some { ss with status := .skipped, error := some msg })
    ∧ (∀ (behavior : StepTask → Nat → Except String JsValue) (task : Task)
        (snapshot : List (String × JsValue)) (st : DagState) (id : String) (s : Step)
        (msg : String) (t : Step) (tid : String),
        s.optional = true → stepExecOutcome behavior task snapshot s = .error msg →
        t.dependsOn = [id] →
        tid ∉ ((executeStep behavior task snapshot st id s).1).running →
        tid ∉ ((executeStep behavior task snapshot st id s).1).completed →
        tid ∉ ((executeStep behavior task snapshot st id s).1).failed →
        canRun ((executeStep behavior task snapshot st id s).1) tid t = true) := by
  have hskip : ∀ (behavior : StepTask → Nat → Except String JsValue) (task : Task)
      (snapshot : List (String × JsValue)) (st : DagState) (id : String) (s : Step)
      (msg : String), s.optional = true → stepExecOutcome behavior task snapshot s = .error msg →
      (executeStep behavior task snapshot st id s)
        = (recordSkip (markRunning st id) id msg, none) := by
    intro behavior task snapshot st id s msg hopt houtcome
    simp [executeStep, houtcome, hopt]
  refine ⟨canRun_iff, ?_, ?_⟩
  · intro behavior task snapshot st id s msg hopt houtcome
    rw [hskip behavior task snapshot st id s msg hopt houtcome]
    refine ⟨rfl, mem_insertUnique _ _, lookupAssoc_setResult _ _ _, ?_⟩
    intro ss hss
    simp only [recordSkip, markRunning]
    rw [lookupAssoc_setStatus_self, lookupAssoc_setStatus_self, hss]
    rfl
  · intro behavior task snapshot st id s msg t tid hopt houtcome hdep hrun hcomp hfail
    rw [canRun_iff]
    refine ⟨hrun, hcomp, hfail, ?_⟩
    intro d hd
    rw [hdep] at hd
    rw [List.mem_singleton] at hd
    rw [hd, hskip behavior task snapshot st id s msg hopt houtcome]
    exact mem_insertUnique _ _

/-- C2 witness: the readiness characterization and the
skip-counts-as-completed behavior at a concrete scheduler state (the
specification's optional-failure pipeline: skipping `y` makes `z`
runnable). -/
theorem dag_readiness_skip_transparent_witness :
    canRun { completed := ["x"],
             statuses := [("y", { id := "y", task := "fails", status := .pending })] } "y"
        { id := some "y", task := "fails", optional := true, dependsOn := ["x"] } = true
    ∧ ((executeStep failsBackend dagSkipTask [("x", JsValue.str "okres")]
          { completed := ["x"],
            statuses := [("y", { id := "y", task := "fails", status := .pending })] } "y"
          { id := some "y", task := "fails", optional := true, dependsOn := ["x"] }).2 = none
        ∧ "y" ∈ ((executeStep failsBackend dagSkipTask [("x", JsValue.str "okres")]
            { completed := ["x"],
              statuses := [("y", { id := "y", task := "fails", status := .pending })] } "y"
            { id := some "y", task := "fails", optional := true, dependsOn := ["x"] }).1).completed
        ∧ lookupAssoc ((executeStep failsBackend dagSkipTask [("x", JsValue.str "okres")]
            { completed := ["x"],
              statuses := [("y", { id := "y", task := "fails", status := .pending })] } "y"
            { id := some "y", task := "fails", optional := true, dependsOn := ["x"] }).1).results
            "y" = some (skippedResult "nope")
        ∧ lookupAssoc ((executeStep failsBackend dagSkipTask [("x", JsValue.str "okres")]
            { completed := ["x"],
              statuses := [("y", { id := "y", task := "fails", status := .pending })] } "y"
            { id := some "y", task := "fails", optional := true, dependsOn := ["x"] }).1).statuses
            "y" = some { id := "y", task := "fails", status := .skipped, error := some "nope" })
    ∧ canRun ((executeStep failsBackend dagSkipTask [("x", JsValue.str "okres")]
          { completed := ["x"],
            statuses := [("y", { id := "y", task := "fails", status := .pending })] } "y"
          { id := some "y", task := "fails", optional := true, dependsOn := ["x"] }).1) "z"
        { id := some "z", task := "ok", dependsOn := ["y"] } = true := by
  refine ⟨?_, ?_, ?_⟩
  · exact (dag_readiness_skip_transparent.1 _ "y" _).mpr
      (by refine ⟨by simp, by simp, by simp, ?_⟩; intro d hd; simpa using hd)
  · have h := dag_readiness_skip_transparent.2.1 failsBackend dagSkipTask
      [("x", JsValue.str "okres")]
      { completed := ["x"],
        statuses := [("y", { id := "y", task := "fails", status := .pending })] } "y"
      { id := some "y", task := "fails", optional := true, dependsOn := ["x"] } "nope" rfl rfl
    exact ⟨h.1, h.2.1, h.2.2.1, h.2.2.2 { id := "y", task := "fails", status := .pending } rfl⟩
  · exact dag_readiness_skip_transparent.2.2 failsBackend dagSkipTask
      [("x", JsValue.str "okres")]
      { completed := ["x"],
        statuses := [("y", { id := "y", task := "fails", status := .pending })] } "y"
      { id := some "y", task := "fails", optional := true, dependsOn := ["x"] } "nope"
      { id := some "z", task := "ok", dependsOn := ["y"] } "z" rfl rfl rfl
      (by decide) (by decide) (by decide)

/-- The outcome record carries an error exactly for a non-optional step
whose work failed, and then it is that step's error. -/
theorem executeStep_snd_iff (behavior : StepTask → Nat → Except String JsValue) (task : Task)
    (snapshot : List (String × JsValue)) (st : DagState) (id : String) (s : Step)
    (msg : String) :
    (executeStep behavior task snapshot st id s).2 = some msg ↔
      (s.optional = false ∧ stepExecOutcome behavior task snapshot s = .error msg) := by
  cases h : stepExecOutcome behavior task snapshot s with
  | ok v => simp [executeStep, h]
  | error m =>
    by_cases hopt : s.optional = true
    · simp [executeStep, h, hopt]
    · have hopt' : s.optional = false := by revert hopt; cases s.optional <;> simp
      simp [executeStep, h, hopt']

/-- `executeStep` does not touch the status entry of another step. -/
theorem executeStep_statuses_other (behavior : StepTask → Nat → Except String JsValue)
    (task : Task) (snapshot : List (String × JsValue)) (st : DagState) (id : String)
    (s : Step) (j : String) (hne : j ≠ id) :
    lookupAssoc ((executeStep behavior task snapshot st id s).1).statuses j
      = lookupAssoc st.statuses j := by
  cases h : stepExecOutcome behavior task snapshot s with
  | ok v =>
    simp only [executeStep, h, recordSuccess, markRunning]
    rw [lookupAssoc_setStatus_other _ _ _ hne, lookupAssoc_setStatus_other _ _ _ hne]
  | error m =>
    by_cases hopt : s.optional = true
    · simp only [executeStep, h, hopt, if_true, recordSkip, markRunning]
      rw [lookupAssoc_setStatus_other _ _ _ hne, lookupAssoc_setStatus_other _ _ _ hne]
    · have hopt' : s.optional = false := by revert hopt; cases s.optional <;> simp
      simp only [executeStep, h, hopt', Bool.false_eq_true, if_false, recordFail, markRunning]
      rw [lookupAssoc_setStatus_other _ _ _ hne, lookupAssoc_setStatus_other _ _ _ hne]

/-- `executeStep` preserves which status entries are present. -/
theorem executeStep_statuses_isSome (behavior : StepTask → Nat → Except String JsValue)
    (task : Task) (snapshot : List (String × JsValue)) (st : DagState) (id : String)
    (s : Step) (j : String) :
    (lookupAssoc ((executeStep behavior task snapshot st id s).1).statuses j).isSome
      = (lookupAssoc st.statuses j).isSome := by
  by_cases hne : j = id
  · subst hne
    cases h : stepExecOutcome behavior task snapshot s with
    | ok v =>
      simp only [executeStep, h, recordSuccess, markRunning]
      rw [lookupAssoc_setStatus_self, lookupAssoc_setStatus_self]
      simp
    | error m =>
      by_cases hopt : s.optional = true
      · simp only [executeStep, h, hopt, if_true, recordSkip, markRunning]
        rw [lookupAssoc_setStatus_self, lookupAssoc_setStatus_self]
        simp
      · have hopt' : s.optional = false := by revert hopt; cases s.optional <;> simp
        simp only [executeStep, h, hopt', Bool.false_eq_true, if_false, recordFail, markRunning]
        rw [lookupAssoc_setStatus_self, lookupAssoc_setStatus_self]
        simp
  · rw [executeStep_statuses_other behavior task snapshot st id s j hne]

/-- After `executeStep` the step's own status is terminal. -/
theorem executeStep_statuses_self_terminal (behavior : StepTask → Nat → Except String JsValue)
    (task : Task) (snapshot : List (String × JsValue)) (st : DagState) (id : String)
    (s : Step) (ss : StepStatus) (hss : lookupAssoc st.statuses id = some ss) :
    ∃ ss', lookupAssoc ((executeStep behavior task snapshot st id s).1).statuses id = some ss'
      ∧ terminalStatus ss'.status := by
  cases h : stepExecOutcome behavior task snapshot s with
  | ok v =>
    simp only [executeStep, h, recordSuccess, markRunning]
    rw [lookupAssoc_setStatus_self, lookupAssoc_setStatus_self, hss]
    exact ⟨_, rfl, Or.inl rfl⟩
  | error m =>
    by_cases hopt : s.optional = true
    · simp only [executeStep, h, hopt, if_true, recordSkip, markRunning]
      rw [lookupAssoc_setStatus_self, lookupAssoc_setStatus_self, hss]
      exact ⟨_, rfl, Or.inr (Or.inr rfl)⟩
    · have hopt' : s.optional = false := by revert hopt; cases s.optional <;> simp
      simp only [executeStep, h, hopt', Bool.false_eq_true, if_false, recordFail, markRunning]
      rw [lookupAssoc_setStatus_self, lookupAssoc_setStatus_self, hss]
      exact ⟨_, rfl, Or.inr (Or.inl rfl)⟩

/-- A failing non-optional step ends with status `failed` carrying its
error message. -/
theorem executeStep_failed_status (behavior : StepTask → Nat → Except String JsValue)
    (task : Task) (snapshot : List (String × JsValue)) (st : DagState) (id : String)
    (s : Step) (msg : String) (ss : StepStatus) (hopt : s.optional = false)
    (houtcome : stepExecOutcome behavior task snapshot s = .error msg)
    (hss : lookupAssoc st.statuses id = some ss) :
    lookupAssoc ((executeStep behavior task snapshot st id s).1).statuses id
      = some { ss with status := .failed, error := some msg } := by
  simp only [executeStep, houtcome, hopt, Bool.false_eq_true, if_false, recordFail, markRunning]
  rw [lookupAssoc_setStatus_self, lookupAssoc_setStatus_self, hss]
  rfl

/-- Awaiting a group does not touch the status entries of steps outside
the group. -/
theorem runGroup_statuses_other (behavior : StepTask → Nat → Except String JsValue)
    (task : Task) (snapshot : List (String × JsValue)) :
    ∀ (group : List (String × Step)) (st : DagState) (j : String),
      j ∉ group.map Prod.fst →
      lookupAssoc ((runGroup behavior task snapshot group st).1).statuses j
        = lookupAssoc st.statuses j := by
  intro group
  induction group with
  | nil => intro st j _; rfl
  | cons e rest ih =>
    intro st j hj
    simp only [List.map_cons, List.mem_cons, not_or] at hj
    simp only [runGroup]
    rw [ih _ _ hj.2, executeStep_statuses_other _ _ _ _ _ _ _ hj.1]

/-- Awaiting a group preserves which status entries are present. -/
theorem runGroup_statuses_isSome (behavior : StepTask → Nat → Except String JsValue)
    (task : Task) (snapshot : List (String × JsValue)) :
    ∀ (group : List (String × Step)) (st : DagState) (j : String),
      (lookupAssoc ((runGroup behavior task snapshot group st).1).statuses j).isSome
        = (lookupAssoc st.statuses j).isSome := by
  intro group
  induction group with
  | nil => intro st j; rfl
  | cons e rest ih =>
    intro st j
    simp only [runGroup]
    rw [ih _ _, executeStep_statuses_isSome]

/-- Every member of an awaited group ends with a terminal status: the
whole group is run to completion. -/
theorem runGroup_terminal (behavior : StepTask → Nat → Except String JsValue)
    (task : Task) (snapshot : List (String × JsValue)) :
    ∀ (group : List (String × Step)) (st : DagState),
      (group.map Prod.fst).Nodup →
      (∀ e ∈ group, (lookupAssoc st.statuses e.1).isSome = true) →
      ∀ e ∈ group,
        ∃ ss', lookupAssoc ((runGroup behavior task snapshot group st).1).statuses e.1
            = some ss' ∧ terminalStatus ss'.status := by
  intro group
  induction group with
  | nil => intro st _ _ e he; exact absurd he (by simp)
  | cons e rest ih =>
    intro st hnodup hdom e' he'
    have hnodup_tail : (rest.map Prod.fst).Nodup := (List.nodup_cons.mp (by simpa using hnodup)).2
    have hhead : e.1 ∉ rest.map Prod.fst := (List.nodup_cons.mp (by simpa using hnodup)).1
    rcases List.mem_cons.mp he' with he1 | he1
    · subst he1
      obtain ⟨ss, hss⟩ := Option.isSome_iff_exists.mp (hdom e' (List.mem_cons_self _ _))
      obtain ⟨ss', hss', hterm⟩ :=
        executeStep_statuses_self_terminal behavior task snapshot st e'.1 e'.2 ss hss
      refine ⟨ss', ?_, hterm⟩
      simp only [runGroup]
      rw [runGroup_statuses_other behavior task snapshot rest _ _ hhead]
      exact hss'
    · have hdom1 : ∀ e'' ∈ rest,
          (lookupAssoc ((executeStep behavior task snapshot st e.1 e.2).1).statuses e''.1).isSome
            = true := by
        intro e'' he''
        rw [executeStep_statuses_isSome]
        exact hdom e'' (List.mem_cons_of_mem _ he'')
      obtain ⟨ss', hss', hterm⟩ := ih _ hnodup_tail hdom1 e' he1
      exact ⟨ss', by simpa [runGroup] using hss', hterm⟩

/-- When the group outcomes contain an error, the first one (in group
order) identifies a non-optional member whose work failed with exactly
that error, and that member ends with status `failed` carrying the
error. -/
theorem runGroup_firstErr (behavior : StepTask → Nat → Except String JsValue)
    (task : Task) (snapshot : List (String × JsValue)) :
    ∀ (group : List (String × Step)) (st : DagState) (eid msg : String),
      (group.map Prod.fst).Nodup →
      (∀ e ∈ group, (lookupAssoc st.statuses e.1).isSome = true) →
      firstErr (runGroup behavior task snapshot group st).2 = some (eid, msg) →
      eid ∈ group.map Prod.fst
      ∧ (∃ s, (eid, s) ∈ group ∧ s.optional = false
          ∧ stepExecOutcome behavior task snapshot s = .error msg)
      ∧ (∃ ss, lookupAssoc ((runGroup behavior task snapshot group st).1).statuses eid
            = some ss ∧ ss.status = .failed ∧ ss.error = some msg) := by
  intro group
  induction group with
  | nil => intro st eid msg _ _ h; exact absurd h (by simp [runGroup, firstErr])
  | cons e rest ih =>
    intro st eid msg hnodup hdom h
    have hnodup_tail : (rest.map Prod.fst).Nodup := (List.nodup_cons.mp (by simpa using hnodup)).2
    have hhead : e.1 ∉ rest.map Prod.fst := (List.nodup_cons.mp (by simpa using hnodup)).1
    simp only [runGroup, firstErr] at h
    cases ho : (executeStep behavior task snapshot st e.1 e.2).2 with
    | some m =>
      rw [ho] at h
      simp only [Option.some.injEq, Prod.mk.injEq] at h
      obtain ⟨heid, hmsg⟩ := h
      subst heid
      subst hmsg
      obtain ⟨hopt, houtcome⟩ := (executeStep_snd_iff behavior task snapshot st e.1 e.2 m).mp ho
      obtain ⟨ss, hss⟩ := Option.isSome_iff_exists.mp (hdom e (List.mem_cons_self _ _))
      refine ⟨by simp, ⟨e.2, by simpa using List.mem_cons_self e rest, hopt, houtcome⟩, ?_⟩
      refine ⟨{ ss with status := .failed, error := some m }, ?_, rfl, rfl⟩
      simp only [runGroup]
      rw [runGroup_statuses_other behavior task snapshot rest _ _ hhead]
      exact executeStep_failed_status behavior task snapshot st e.1 e.2 m ss hopt houtcome hss
    | none =>
      rw [ho] at h
      have hdom1 : ∀ e'' ∈ rest,
          (lookupAssoc ((executeStep behavior task snapshot st e.1 e.2).1).statuses e''.1).isSome
            = true := by
        intro e'' he''
        rw [executeStep_statuses_isSome]
        exact hdom e'' (List.mem_cons_of_mem _ he'')
      obtain ⟨hmem, ⟨s, hsmem, hopt, houtcome⟩, ⟨ss, hss, hfailed, herr⟩⟩ :=
        ih _ eid msg hnodup_tail hdom1 h
      exact ⟨by simp [hmem], ⟨s, List.mem_cons_of_mem _ hsmem, hopt, houtcome⟩,
        ⟨ss, by simpa [runGroup] using hss, hfailed, herr⟩⟩

/-- The initial status map holds a `pending` entry for every step
id. -/
theorem initStatuses_lookup :
    ∀ (entries : List (String × Step)) (sid : String), sid ∈ entries.map Prod.fst →
      ∃ sp, lookupAssoc (initStatuses entries) sid = some sp ∧ sp.status = .pending := by
  intro entries
  induction entries with
  | nil => intro sid h; exact absurd h (by simp)
  | cons e rest ih =>
    intro sid h
    simp only [initStatuses, List.map_cons, lookupAssoc]
    by_cases he : e.1 = sid
    · rw [if_pos he]
      exact ⟨_, rfl, rfl⟩
    · rw [if_neg he]
      simp only [List.map_cons, List.mem_cons] at h
      rcases h with h | h
      · exact absurd h.symm he
      · simpa [initStatuses] using ih sid h

/-- Scheduler-loop invariant: when a completed loop run ends in a step
failure, the failing step sits in the last launched group, it is
non-optional and failed with exactly the reported error, every member
of that group reached a terminal status, and every step outside the
launched groups is still `pending`. -/
theorem dagLoopGo_stepFailure (behavior : StepTask → Nat → Except String JsValue)
    (task : Task) (entries : List (String × Step)) (total : Nat)
    (hnodup : (entries.map Prod.fst).Nodup) :
    ∀ (fuel : Nat) (st : DagState) (groups : List (List String)) (run : DagRun)
      (id msg : String),
      (∀ sid ∈ entries.map Prod.fst, sid ∉ groups.join →
          ∃ sp, lookupAssoc st.statuses sid = some sp ∧ sp.status = .pending) →
      (∀ sid ∈ entries.map Prod.fst, (lookupAssoc st.statuses sid).isSome = true) →
      dagLoopGo behavior task entries total fuel st groups = some run →
      run.result = .error (.stepFailure id msg) →
      ∃ g, run.launched.getLast? = some g ∧ id ∈ g
        ∧ (∃ s snap, (id, s) ∈ entries ∧ s.optional = false
            ∧ stepExecOutcome behavior task snap s = .error msg)
        ∧ (∃ ss, lookupAssoc run.state.statuses id = some ss
            ∧ ss.status = .failed ∧ ss.error = some msg)
        ∧ (∀ j ∈ g, ∃ sj, lookupAssoc run.state.statuses j = some sj
            ∧ terminalStatus sj.status)
        ∧ (∀ sid ∈ entries.map Prod.fst, sid ∉ run.launched.join →
            ∃ sp, lookupAssoc run.state.statuses sid = some sp ∧ sp.status = .pending) := by
  intro fuel
  induction fuel with
  | zero =>
    intro st groups run id msg _ _ h _
    exact absurd h (by simp [dagLoopGo])
  | succ fuel ih =>
    intro st groups run id msg hpend hdom h hres
    simp only [dagLoopGo] at h
    split at h
    · injection h with h'
      subst h'
      simp at hres
    · split at h
      · split at h
        · injection h with h'
          subst h'
          simp at hres
        · exact absurd h (by simp)
      · split at h
        · rename_i idmsg heq
          injection h with h'
          subst h'
          have hew : DagError.stepFailure idmsg.1 idmsg.2 = DagError.stepFailure id msg := by
            simpa using hres
          simp only [DagError.stepFailure.injEq] at hew
          obtain ⟨hid, hmsg⟩ := hew
          subst hid
          subst hmsg
          have hsub : (entries.filter fun e => canRun st e.1 e.2).Sublist entries :=
            List.filter_sublist _
          have hnodup_r : ((entries.filter fun e => canRun st e.1 e.2).map Prod.fst).Nodup :=
            hnodup.sublist (hsub.map Prod.fst)
          have hdom_r : ∀ e ∈ entries.filter fun e => canRun st e.1 e.2,
              (lookupAssoc st.statuses e.1).isSome = true := by
            intro e he
            exact hdom e.1 (List.mem_map_of_mem _ (List.mem_of_mem_filter he))
          obtain ⟨hmem, ⟨s, hsmem, hopt, houtcome⟩, ⟨ss, hss, hfailed, herr⟩⟩ :=
            runGroup_firstErr behavior task st.results
              (entries.filter fun e => canRun st e.1 e.2) st idmsg.1 idmsg.2
              hnodup_r hdom_r heq
          refine ⟨(entries.filter fun e => canRun st e.1 e.2).map Prod.fst,
            by simp [List.getLast?_concat], hmem,
            ⟨s, st.results, List.mem_of_mem_filter hsmem, hopt, houtcome⟩,
            ⟨ss, hss, hfailed, herr⟩, ?_, ?_⟩
          · intro j hj
            obtain ⟨e, hef, hej⟩ := List.mem_map.mp hj
            obtain ⟨ss', hss', hterm⟩ :=
              runGroup_terminal behavior task st.results
                (entries.filter fun e => canRun st e.1 e.2) st hnodup_r hdom_r e hef
            rw [← hej]
            exact ⟨ss', hss', hterm⟩
          · intro sid hsid hnot
            simp only [List.join_append, List.join_cons, List.join_nil, List.append_nil,
              List.mem_append, not_or] at hnot
            rw [runGroup_statuses_other behavior task st.results _ _ _ hnot.2]
            exact hpend sid hsid hnot.1
        · rename_i heq
          refine ih ((runGroup behavior task st.results
              (entries.filter fun e => canRun st e.1 e.2) st).1)
              (groups ++ [(entries.filter fun e => canRun st e.1 e.2).map Prod.fst])
              run id msg ?_ ?_ h hres
          · intro sid hsid hnot
            simp only [List.join_append, List.join_cons, List.join_nil, List.append_nil,
              List.mem_append, not_or] at hnot
            rw [runGroup_statuses_other behavior task st.results _ _ _ hnot.2]
            exact hpend sid hsid hnot.1
          · intro sid hsid
            rw [runGroup_statuses_isSome]
            exact hdom sid hsid

/-- C1: when a DAG pipeline run terminates with a step failure, the
error is the error of a non-optional step whose work failed, that step
sits in the last launched scheduling group and is recorded `failed`
with that error, every already-launched step of the same group was
awaited to a terminal status, and no step outside the launched groups
ever started (they are all still `pending`); conversely a non-optional
step that exhausts its retries always reports its error to the
scheduler. -/
theorem dag_failure_stops :
    (∀ (behavior : StepTask → Nat → Except String JsValue) (task : Task) (run : DagRun)
        (id msg : String),
        ((stepEntries task.steps).map Prod.fst).Nodup →
        processPipelineDAG behavior task = some run →
        run.result = .error (.stepFailure id msg) →
        ∃ g, run.launched.getLast? = some g ∧ id ∈ g
          ∧ (∃ s snap, (id, s) ∈ stepEntries task.steps ∧ s.optional = false
              ∧ stepExecOutcome behavior task snap s = .error msg)
          ∧ (∃ ss, lookupAssoc run.state.statuses id = some ss
              ∧ ss.status = .failed ∧ ss.error = some msg)
          ∧ (∀ j ∈ g, ∃ sj, lookupAssoc run.state.statuses j = some sj
              ∧ terminalStatus sj.status)
          ∧ (∀ sid ∈ (stepEntries task.steps).map Prod.fst, sid ∉ run.launched.join →
              ∃ sp, lookupAssoc run.state.statuses sid = some sp ∧ sp.status = .pending))
    ∧ (∀ (behavior : StepTask → Nat → Except String JsValue) (task : Task)
        (snapshot : List (String × JsValue)) (st : DagState) (id : String) (s : Step)
        (msg : String),
        s.optional = false → stepExecOutcome behavior task snapshot s = .error msg →
        (executeStep behavior task snapshot st id s).2 = some msg) := by
  constructor
  · intro behavior task run id msg hnodup h hres
    refine dagLoopGo_stepFailure behavior task (stepEntries task.steps) task.steps.length
      hnodup (task.steps.length + 1) (initState (stepEntries task.steps)) [] run id msg
      ?_ ?_ h hres
    · intro sid hsid _
      exact initStatuses_lookup (stepEntries task.steps) sid hsid
    · intro sid hsid
      obtain ⟨sp, hsp, _⟩ := initStatuses_lookup (stepEntries task.steps) sid hsid
      rw [show (initState (stepEntries task.steps)).statuses
          = initStatuses (stepEntries task.steps) from rfl, hsp]
      rfl
  · intro behavior task snapshot st id s msg hopt houtcome
    exact (executeStep_snd_iff behavior task snapshot st id s msg).mpr ⟨hopt, houtcome⟩

/-- C1 witness: the theorem at the concrete diamond pipeline where `b`
(launched together with `c`) fails non-optionally: the run errors with
`b`'s message, `b` and `c` are both terminal, and the dependent `d`
never started. -/
theorem dag_failure_stops_witness :
    ((stepEntries dagFailTask.steps).map Prod.fst).Nodup
    ∧ (∃ g, dagFailRun.launched.getLast? = some g ∧ "b" ∈ g
        ∧ (∃ s snap, ("b", s) ∈ stepEntries dagFailTask.steps ∧ s.optional = false
            ∧ stepExecOutcome failsBackend dagFailTask snap s = .error "nope")
        ∧ (∃ ss, lookupAssoc dagFailRun.state.statuses "b" = some ss
            ∧ ss.status = .failed ∧ ss.error = some "nope")
        ∧ (∀ j ∈ g, ∃ sj, lookupAssoc dagFailRun.state.statuses j = some sj
            ∧ terminalStatus sj.status)
        ∧ (∀ sid ∈ (stepEntries dagFailTask.steps).map Prod.fst,
            sid ∉ dagFailRun.launched.join →
            ∃ sp, lookupAssoc dagFailRun.state.statuses sid = some sp
              ∧ sp.status = .pending)) :=
  ⟨by decide,
   dag_failure_stops.1 failsBackend dagFailTask dagFailRun "b" "nope" (by decide) rfl rfl⟩

end DWA
